import Mathlib

/-!
Shallow embedding of `cleanup-packer-aws-resources.py` (Farley's AWS missing
tools).  The script scans every AWS region for leftover Packer resources
(running instances tagged `Name = "Packer Builder"` older than `max_age`,
key pairs named `packer *`, security groups named `packer_*`) and deletes
them, swallowing per-item deletion errors.

Python dictionaries / JSON records returned by boto3 are modelled as Lean
structures; optional record fields (`Tags`, `KeyName`) are `Option`s, and a
missing-field access (`KeyError`) or a failing provider list call is an
`Except.error`.  Timestamps are integers (Unix epoch seconds); the
conversion `dt2ts` (= `calendar.timegm(dt.utctimetuple())`) is embedded as
proleptic-Gregorian day arithmetic on a UTC time tuple.  Deletion / terminate
calls and log lines become an explicit event trace, and the outcome of each
individual mutation call is an oracle (`FailureModel`), so that the
orchestrator's error isolation is a statement over all oracles.
-/

namespace PackerCleanup

/-- The in-source constant `max_age = 21600` (seconds). -/
def max_age : Int := 21600

/-- One EC2 tag, a `{'Key': ..., 'Value': ...}` record. -/
structure Tag where
  key : String
  value : String
deriving Repr, DecidableEq

/-- One security-group reference as attached to an instance
(`{'GroupName': ..., 'GroupId': ...}`). -/
structure SecurityGroupRef where
  groupName : String
  groupId : String
deriving Repr, DecidableEq

/-- A UTC broken-down time, the result of `dt.utctimetuple()` on the
timezone-aware `LaunchTime` that boto3 returns. -/
structure TimeTuple where
  year : Nat
  month : Nat
  day : Nat
  hour : Nat
  minute : Nat
  second : Nat
deriving Repr, DecidableEq

/-- Gregorian leap-year test. -/
def isLeap (y : Nat) : Bool :=
  (y % 4 == 0 && y % 100 != 0) || (y % 400 == 0)

/-- Days in the months strictly before month `m` (1-based) of a non-leap year. -/
def cumDays : Nat → Nat
  | 1 => 0 | 2 => 31 | 3 => 59 | 4 => 90 | 5 => 120 | 6 => 151
  | 7 => 181 | 8 => 212 | 9 => 243 | 10 => 273 | 11 => 304 | 12 => 334
  | _ => 0

/-- Proleptic-Gregorian ordinal of a date (day 1 = 0001-01-01), as in
Python's `datetime.date.toordinal`. -/
def toordinal (y m d : Nat) : Nat :=
  365 * (y - 1) + (y - 1) / 4 - (y - 1) / 100 + (y - 1) / 400
    + cumDays m + (if 3 ≤ m && isLeap y then 1 else 0) + d

/-- Ordinal of 1970-01-01, the Unix epoch. -/
def epochOrdinal : Nat := toordinal 1970 1 1

/-- `calendar.timegm`: seconds since the Unix epoch of a UTC time tuple. -/
def timegm (t : TimeTuple) : Int :=
  ((toordinal t.year t.month t.day : Int) - (epochOrdinal : Int)) * 86400
    + (t.hour : Int) * 3600 + (t.minute : Int) * 60 + (t.second : Int)

/-- `dt2ts(dt) = calendar.timegm(dt.utctimetuple())`: the launch datetime,
already reduced to its UTC time tuple, converted to Unix seconds. -/
def dt2ts (dt : TimeTuple) : Int := timegm dt

/-- An EC2 instance record as returned inside `describe_instances`
reservations.  `tags = none` models a record with no `'Tags'` key, and
`keyName = none` one with no `'KeyName'` key (its access raises `KeyError`). -/
structure Ec2Instance where
  instanceId : String
  stateName : String
  tags : Option (List Tag)
  launchTime : TimeTuple
  keyName : Option String
  securityGroups : List SecurityGroupRef
deriving Repr, DecidableEq

/-- A key-pair record from `describe_key_pairs`; fields other than the name
play no role in the script. -/
structure KeyPair where
  keyName : String
  keyFingerprint : String
deriving Repr, DecidableEq

/-- A security-group record from `describe_security_groups`. -/
structure SecurityGroup where
  groupName : String
  groupId : String
  description : String
deriving Repr, DecidableEq

/-- The record appended to `regionoutput` for a zombie instance. -/
structure ZombieInstance where
  region : String
  instance_id : String
  keyname : String
  security_groups : List SecurityGroupRef
deriving Repr, DecidableEq

/-- The cloud provider: what each regional list call returns.  A call that
fails raises, hence `Except`.  `describe_key_pairs` / `describe_security_groups`
are invoked with a server-side name filter, so the scanner applies the
filter pattern to these raw lists (`globMatch` below is the provider's
wildcard semantics). -/
structure Provider where
  reservations : String → Except String (List (List Ec2Instance))
  keyPairs : String → Except String (List KeyPair)
  securityGroups : String → Except String (List SecurityGroup)

/-- The tag loop of `get_zombie_packer_instances`: walk the tags; at the
first tag with key `'Name'`, match iff its value is `'Packer Builder'`
(the loop `break`s on the first `'Name'` tag either way). -/
def firstNameMatch : List Tag → Bool
  | [] => false
  | t :: ts => if t.key == "Name" then t.value == "Packer Builder" else firstNameMatch ts

/-- `packerNameTagMatched` after the loop: `false` when the instance has no
`'Tags'` key at all. -/
def nameTagMatched : Option (List Tag) → Bool
  | none => false
  | some ts => firstNameMatch ts

/-- The per-instance body of the scan loop: skip unless running, skip unless
the Name tag matches, skip unless `utc_now_ts - dt2ts(LaunchTime) > maximum_age`;
otherwise build the zombie record (reading `instance['KeyName']`, which
raises `KeyError` when absent). -/
def scanInstance (region : String) (utc_now_ts maximum_age : Int)
    (i : Ec2Instance) : Except String (Option ZombieInstance) :=
  if i.stateName == "running" then
    if nameTagMatched i.tags then
      if utc_now_ts - dt2ts i.launchTime > maximum_age then
        match i.keyName with
        | none => .error "KeyError: KeyName"
        | some k => .ok (some { region := region, instance_id := i.instanceId,
                                keyname := k, security_groups := i.securityGroups })
      else .ok none
    else .ok none
  else .ok none

/-- The inner double loop over `response['Reservations']` / `['Instances']`,
flattened, appending each produced record to `regionoutput` in order. -/
def scanInstList (region : String) (utc_now_ts maximum_age : Int) :
    List Ec2Instance → Except String (List ZombieInstance)
  | [] => .ok []
  | i :: is => do
      let r ← scanInstance region utc_now_ts maximum_age i
      let rest ← scanInstList region utc_now_ts maximum_age is
      pure (match r with | some z => z :: rest | none => rest)

/-- `get_zombie_packer_instances(regions, maximum_age)`: region by region,
call `describe_instances` and collect the qualifying records; the result is
the insertion-ordered dict `output` (an association list keyed by region). -/
def get_zombie_packer_instances (p : Provider) (utc_now_ts maximum_age : Int) :
    List String → Except String (List (String × List ZombieInstance))
  | [] => .ok []
  | r :: rs => do
      let resvs ← p.reservations r
      let zs ← scanInstList r utc_now_ts maximum_age resvs.flatten
      let rest ← get_zombie_packer_instances p utc_now_ts maximum_age rs
      pure ((r, zs) :: rest)

/-- AWS API filter wildcard matching: `*` matches any run of characters
(`?` does not occur in the script's patterns and is treated literally). -/
def globMatch : List Char → List Char → Bool
  | [], s => s.isEmpty
  | p :: ps, s =>
      if p = '*' then
        match s with
        | [] => globMatch ps []
        | _ :: cs => globMatch ps s || globMatch (p :: ps) cs
      else
        match s with
        | [] => false
        | c :: cs => p == c && globMatch ps cs
termination_by ps s => (ps.length, s.length)

/-- A name matches a filter pattern string. -/
def filterMatch (pat name : String) : Bool :=
  globMatch pat.toList name.toList

/-- `get_zombie_packer_keys(regions)`: per region, `describe_key_pairs`
filtered server-side on `key-name = 'packer *'`; append each `KeyName`. -/
def get_zombie_packer_keys (p : Provider) :
    List String → Except String (List (String × List String))
  | [] => .ok []
  | r :: rs => do
      let pairs ← p.keyPairs r
      let rest ← get_zombie_packer_keys p rs
      pure ((r, (pairs.filter (fun kp => filterMatch "packer *" kp.keyName)).map
                  (fun kp => kp.keyName)) :: rest)

/-- `get_zombie_packer_security_groups(regions)`: per region,
`describe_security_groups` filtered server-side on `group-name = 'packer_*'`;
append each `GroupName`. -/
def get_zombie_packer_security_groups (p : Provider) :
    List String → Except String (List (String × List String))
  | [] => .ok []
  | r :: rs => do
      let sgs ← p.securityGroups r
      let rest ← get_zombie_packer_security_groups p rs
      pure ((r, (sgs.filter (fun sg => filterMatch "packer_*" sg.groupName)).map
                  (fun sg => sg.groupName)) :: rest)

/-- Observable behaviour of `lambda_handler`: log lines printed to stdout
and mutation calls issued to the provider, in order.  A mutation-call event
carries the region of the `boto3.client('ec2', region_name=region)` through
which it was issued. -/
inductive Event where
  | logScanInstances (nRegions : Nat)
  | logSkipInstances (region : String)
  | logFoundInstances (region : String) (count : Nat)
  | terminateCall (region : String) (instanceIds : List String)
  | logTerminateOk
  | logTerminateErr
  | logScanKeys (nRegions : Nat)
  | logSkipKeys (region : String)
  | logFoundKeys (region : String) (count : Nat)
  | logDeletingKey (key : String)
  | deleteKeyCall (region : String) (key : String)
  | logKeyDeleted
  | logDeleteKeyErr
  | logScanSgs (nRegions : Nat)
  | logSkipSgs (region : String)
  | logFoundSgs (region : String) (count : Nat)
  | logDeletingSg (sg : String)
  | deleteSgCall (region : String) (sg : String)
  | logSgDeleted
  | logDeleteSgErr
deriving Repr, DecidableEq

/-- Whether an event is an API mutation call (as opposed to a log line). -/
def Event.isMutation : Event → Bool
  | .terminateCall _ _ => true
  | .deleteKeyCall _ _ => true
  | .deleteSgCall _ _ => true
  | _ => false

/-- The region of a mutation call, if the event is one. -/
def Event.mutationRegion : Event → Option String
  | .terminateCall r _ => some r
  | .deleteKeyCall r _ => some r
  | .deleteSgCall r _ => some r
  | _ => none

/-- The event is a batched terminate call issued in region `r`. -/
def isTerminateFor (r : String) : Event → Bool
  | .terminateCall r' _ => r' == r
  | _ => false

/-- The event is the delete call for key `k` in region `r`. -/
def isDeleteKey (r k : String) (e : Event) : Bool :=
  e == .deleteKeyCall r k

/-- The event is the delete call for security group `g` in region `r`. -/
def isDeleteSg (r g : String) (e : Event) : Bool :=
  e == .deleteSgCall r g

/-- Outcome oracle for the delete/terminate calls: which calls raise.  The
script wraps every such call in `try/except`, so the oracle decides only
which log line follows the call, never whether the run survives. -/
structure FailureModel where
  terminateFails : String → List String → Bool
  deleteKeyFails : String → String → Bool
  deleteSgFails : String → String → Bool

/-- The loop body of pass 1 for one `zombies.items()` entry: a region with
no zombie instances logs the skip line; otherwise one batched
`terminate_instances` call with all of the region's flagged instance ids,
inside `try/except`. -/
def instanceSeg (f : FailureModel) (pr : String × List ZombieInstance) :
    List Event :=
  if pr.2.length = 0 then [Event.logSkipInstances pr.1]
  else
    [Event.logFoundInstances pr.1 pr.2.length,
     Event.terminateCall pr.1 (pr.2.map (fun z => z.instance_id))]
      ++ (if f.terminateFails pr.1 (pr.2.map (fun z => z.instance_id)) then
            [Event.logTerminateErr]
          else [Event.logTerminateOk])

/-- Pass 1: iterate over `zombies.items()`, concatenating each entry's
observable events. -/
def instancePass (f : FailureModel) (l : List (String × List ZombieInstance)) :
    List Event :=
  l.flatMap (instanceSeg f)

/-- One iteration of the inner loop of pass 2: a `delete_key_pair` call for
one key name, inside its own `try/except`. -/
def keyItemSeg (f : FailureModel) (r k : String) : List Event :=
  [Event.logDeletingKey k, Event.deleteKeyCall r k]
    ++ (if f.deleteKeyFails r k then [Event.logDeleteKeyErr]
        else [Event.logKeyDeleted])

/-- The inner loop of pass 2 over a region's flagged key names. -/
def keyDeleteLoop (f : FailureModel) (r : String) (ks : List String) :
    List Event :=
  ks.flatMap (keyItemSeg f r)

/-- The loop body of pass 2 for one `zombies.items()` entry. -/
def keySeg (f : FailureModel) (pr : String × List String) : List Event :=
  if pr.2.length = 0 then [Event.logSkipKeys pr.1]
  else Event.logFoundKeys pr.1 pr.2.length :: keyDeleteLoop f pr.1 pr.2

/-- Pass 2: iterate over the key scan's `zombies.items()`. -/
def keyPass (f : FailureModel) (l : List (String × List String)) : List Event :=
  l.flatMap (keySeg f)

/-- One iteration of the inner loop of pass 3: a `delete_security_group`
call for one group name, inside its own `try/except`. -/
def sgItemSeg (f : FailureModel) (r g : String) : List Event :=
  [Event.logDeletingSg g, Event.deleteSgCall r g]
    ++ (if f.deleteSgFails r g then [Event.logDeleteSgErr]
        else [Event.logSgDeleted])

/-- The inner loop of pass 3 over a region's flagged group names. -/
def sgDeleteLoop (f : FailureModel) (r : String) (gs : List String) :
    List Event :=
  gs.flatMap (sgItemSeg f r)

/-- The loop body of pass 3 for one `zombies.items()` entry. -/
def sgSeg (f : FailureModel) (pr : String × List String) : List Event :=
  if pr.2.length = 0 then [Event.logSkipSgs pr.1]
  else Event.logFoundSgs pr.1 pr.2.length :: sgDeleteLoop f pr.1 pr.2

/-- Pass 3: iterate over the security-group scan's `zombies.items()`. -/
def sgPass (f : FailureModel) (l : List (String × List String)) : List Event :=
  l.flatMap (sgSeg f)

/-- `lambda_handler(event, context)`: the three scan+cleanup passes in
order, over the module-level `regions` and `max_age`.  A scan-phase
exception (failing list call, `KeyError`) propagates and aborts the run;
the `event`/`context` arguments are never read. -/
def lambda_handler {α β : Type} (_event : α) (_context : β)
    (p : Provider) (f : FailureModel) (utc_now_ts maximum_age : Int)
    (regions : List String) : Except String (List Event) := do
  let zi ← get_zombie_packer_instances p utc_now_ts maximum_age regions
  let zk ← get_zombie_packer_keys p regions
  let zg ← get_zombie_packer_security_groups p regions
  pure ((Event.logScanInstances regions.length :: instancePass f zi)
    ++ (Event.logScanKeys regions.length :: keyPass f zk)
    ++ (Event.logScanSgs regions.length :: sgPass f zg))

/-- The process environment slots the script reads:
`AWS_LAMBDA_FUNCTION_NAME` and `AWS_EXECUTION_ENV` (`none` = unset). -/
structure Env where
  awsLambdaFunctionName : Option String
  awsExecutionEnv : Option String
deriving Repr, DecidableEq

/-- Python truthiness of `os.environ.get(...)`: `None` and the empty string
are falsy, any other string truthy. -/
def truthy : Option String → Bool
  | none => false
  | some s => s ≠ ""

/-- `is_aws_env()`: `os.environ.get('AWS_LAMBDA_FUNCTION_NAME') or
os.environ.get('AWS_EXECUTION_ENV')`, used as a boolean. -/
def is_aws_env (e : Env) : Bool :=
  truthy e.awsLambdaFunctionName || truthy e.awsExecutionEnv

/-- The module toplevel `if not is_aws_env(): lambda_handler({}, {})`:
`some` result when the handler is invoked immediately at process start,
`none` when the script only exposes the handler. -/
def moduleToplevel (e : Env) (p : Provider) (f : FailureModel)
    (utc_now_ts maximum_age : Int) (regions : List String) :
    Option (Except String (List Event)) :=
  if is_aws_env e then none
  else some (lambda_handler () () p f utc_now_ts maximum_age regions)

/-- Number of immediate Orchestrator invocations at process start. -/
def startInvocations (e : Env) (p : Provider) (f : FailureModel)
    (utc_now_ts maximum_age : Int) (regions : List String) : Nat :=
  (moduleToplevel e p f utc_now_ts maximum_age regions).toList.length

/-! ### Derived predicates used to state the claims -/

/-- The tag list of an instance (`[]` when the `'Tags'` key is absent). -/
def tagsOf (i : Ec2Instance) : List Tag := i.tags.getD []

/-- The instance carries a tag with key `'Name'` and value exactly
`'Packer Builder'` (the spec's wording of the tag condition). -/
def hasPackerNameTag (i : Ec2Instance) : Prop :=
  ∃ t ∈ tagsOf i, t.key = "Name" ∧ t.value = "Packer Builder"

instance (i : Ec2Instance) : Decidable (hasPackerNameTag i) := by
  unfold hasPackerNameTag; infer_instance

/-- Well-formedness guaranteed by the provider: tag keys are unique per
resource, so at most one tag has key `'Name'`. -/
def atMostOneNameTag (i : Ec2Instance) : Prop :=
  ((tagsOf i).filter (fun t => t.key == "Name")).length ≤ 1

instance (i : Ec2Instance) : Decidable (atMostOneNameTag i) := by
  unfold atMostOneNameTag; infer_instance

/-- The zombie record the scan derives from one instance, `none` when the
instance is skipped (also `none` when a flagged instance has no `KeyName`,
a case in which the real scan raises instead). -/
def zombieOf (region : String) (utc_now_ts maximum_age : Int)
    (i : Ec2Instance) : Option ZombieInstance :=
  if i.stateName == "running" then
    if nameTagMatched i.tags then
      if utc_now_ts - dt2ts i.launchTime > maximum_age then
        i.keyName.map (fun k =>
          { region := region, instance_id := i.instanceId,
            keyname := k, security_groups := i.securityGroups })
      else none
    else none
  else none

/-- Which of the three cleanup passes an event belongs to. -/
def Event.passKind : Event → Nat
  | .logScanInstances _ => 1 | .logSkipInstances _ => 1 | .logFoundInstances _ _ => 1
  | .terminateCall _ _ => 1 | .logTerminateOk => 1 | .logTerminateErr => 1
  | .logScanKeys _ => 2 | .logSkipKeys _ => 2 | .logFoundKeys _ _ => 2
  | .logDeletingKey _ => 2 | .deleteKeyCall _ _ => 2 | .logKeyDeleted => 2
  | .logDeleteKeyErr => 2
  | .logScanSgs _ => 3 | .logSkipSgs _ => 3 | .logFoundSgs _ _ => 3
  | .logDeletingSg _ => 3 | .deleteSgCall _ _ => 3 | .logSgDeleted => 3
  | .logDeleteSgErr => 3

/-! ### Sample data for concrete witnesses -/

/-- A running, old Packer Builder instance. -/
def sampleOldPacker : Ec2Instance :=
  { instanceId := "i-0aaa", stateName := "running",
    tags := some [⟨"Env", "ci"⟩, ⟨"Name", "Packer Builder"⟩],
    launchTime := ⟨2026, 10, 12, 3, 0, 0⟩,
    keyName := some "packer k1", securityGroups := [⟨"packer_sg1", "sg-1"⟩] }

/-- A flagged instance whose record lacks the `'KeyName'` field. -/
def sampleNoKeyName : Ec2Instance :=
  { instanceId := "i-0bbb", stateName := "running",
    tags := some [⟨"Name", "Packer Builder"⟩],
    launchTime := ⟨2026, 10, 12, 3, 0, 0⟩,
    keyName := none, securityGroups := [] }

/-- A Unix timestamp used as "now" in witnesses: 2026-10-12 15:30:05 UTC,
so `sampleOldPacker` is 45005 seconds old. -/
def sampleNow : Int := 1791819005

/-- The zombie record the scan derives from `sampleOldPacker`. -/
def sampleZombie : ZombieInstance :=
  { region := "us-east-1", instance_id := "i-0aaa", keyname := "packer k1",
    security_groups := [⟨"packer_sg1", "sg-1"⟩] }

/-- The region list used in witnesses. -/
def sampleRegions : List String := ["us-east-1", "eu-west-1"]

/-- A provider with resources only in `us-east-1`; `eu-west-1` is empty. -/
def sampleProvider : Provider where
  reservations := fun r =>
    if r = "us-east-1" then .ok [[sampleOldPacker]] else .ok []
  keyPairs := fun r =>
    if r = "us-east-1" then .ok [⟨"packer k1", "aa:bb"⟩, ⟨"deploy-key", "cc:dd"⟩]
    else .ok []
  securityGroups := fun r =>
    if r = "us-east-1" then .ok [⟨"packer_sg1", "sg-1", "x"⟩, ⟨"default", "sg-0", "y"⟩]
    else .ok []

/-- A provider whose flagged instance has no `KeyName`. -/
def sampleBadProvider : Provider where
  reservations := fun _ => .ok [[sampleNoKeyName]]
  keyPairs := fun _ => .ok []
  securityGroups := fun _ => .ok []

/-- A provider whose list calls all fail. -/
def downProvider : Provider where
  reservations := fun _ => .error "RequestLimitExceeded"
  keyPairs := fun _ => .error "RequestLimitExceeded"
  securityGroups := fun _ => .error "RequestLimitExceeded"

/-- Failure oracle: no delete/terminate call fails. -/
def noFail : FailureModel :=
  { terminateFails := fun _ _ => false,
    deleteKeyFails := fun _ _ => false,
    deleteSgFails := fun _ _ => false }

/-- Failure oracle: every delete/terminate call fails. -/
def allFail : FailureModel :=
  { terminateFails := fun _ _ => true,
    deleteKeyFails := fun _ _ => true,
    deleteSgFails := fun _ _ => true }

/-! ### Lemmas about the `Except` monad plumbing -/

theorem exc_bind_ok {α β : Type} (a : α) (g : α → Except String β) :
    (Except.ok a >>= g) = g a := rfl

theorem exc_bind_error {α β : Type} (e : String) (g : α → Except String β) :
    ((Except.error e : Except String α) >>= g) = Except.error e := rfl

theorem exc_map_ok {α β : Type} (g : α → β) (a : α) :
    (g <$> (Except.ok a : Except String α)) = Except.ok (g a) := rfl

theorem exc_map_error {α β : Type} (g : α → β) (e : String) :
    (g <$> (Except.error e : Except String α)) = Except.error e := rfl

theorem exc_error_ne_ok {α : Type} (e : String) (a : α) :
    (Except.error e : Except String α) ≠ Except.ok a := by
  intro h; exact Except.noConfusion h

/-! ### Lemmas about the instance scan -/

theorem scanInstance_ok_eq (region : String) (now age : Int) (i : Ec2Instance)
    (o : Option ZombieInstance) (h : scanInstance region now age i = .ok o) :
    o = zombieOf region now age i := by
  unfold scanInstance at h
  unfold zombieOf
  by_cases hs : (i.stateName == "running") = true
  · rw [if_pos hs] at h; rw [if_pos hs]
    by_cases ht : nameTagMatched i.tags = true
    · rw [if_pos ht] at h; rw [if_pos ht]
      by_cases ha : now - dt2ts i.launchTime > age
      · rw [if_pos ha] at h; rw [if_pos ha]
        cases hk : i.keyName with
        | none => rw [hk] at h; exact absurd h (exc_error_ne_ok _ _)
        | some k =>
          rw [hk] at h
          simp only [Option.map_some']
          exact (Except.ok.inj h).symm
      · rw [if_neg ha] at h; rw [if_neg ha]; exact (Except.ok.inj h).symm
    · rw [if_neg ht] at h; rw [if_neg ht]; exact (Except.ok.inj h).symm
  · rw [if_neg hs] at h; rw [if_neg hs]; exact (Except.ok.inj h).symm

theorem scanInstance_qualifying_keyName (region : String) (now age : Int)
    (i : Ec2Instance) (o : Option ZombieInstance)
    (h : scanInstance region now age i = .ok o)
    (hq : i.stateName = "running" ∧ nameTagMatched i.tags = true
            ∧ now - dt2ts i.launchTime > age) :
    i.keyName.isSome := by
  obtain ⟨hs, ht, ha⟩ := hq
  cases hk : i.keyName
  · simp [scanInstance, hs, ht, ha, hk] at h
  · simp [hk]

theorem scanInstList_ok_eq (region : String) (now age : Int) :
    ∀ (l : List Ec2Instance) (zs : List ZombieInstance),
      scanInstList region now age l = .ok zs →
      zs = l.filterMap (zombieOf region now age)
  | [], zs, h => by simp_all [scanInstList]
  | i :: is, zs, h => by
      cases hi : scanInstance region now age i with
      | error e =>
        rw [scanInstList, hi, exc_bind_error] at h
        exact absurd h (exc_error_ne_ok _ _)
      | ok o =>
        cases hr : scanInstList region now age is with
        | error e =>
          rw [scanInstList, hi, exc_bind_ok] at h
          simp only [hr, bind_pure_comp, exc_map_error] at h
          exact absurd h (exc_error_ne_ok _ _)
        | ok rest =>
          have ih := scanInstList_ok_eq region now age is rest hr
          have ho := scanInstance_ok_eq region now age i o hi
          rw [scanInstList, hi, exc_bind_ok] at h
          simp only [hr, bind_pure_comp, exc_map_ok, Except.ok.injEq] at h
          cases o with
          | none => simp [← h, ih, List.filterMap_cons, ← ho]
          | some z => simp [← h, ih, List.filterMap_cons, ← ho]

theorem scanInstList_keyName (region : String) (now age : Int) :
    ∀ (l : List Ec2Instance) (zs : List ZombieInstance),
      scanInstList region now age l = .ok zs →
      ∀ i ∈ l, (i.stateName = "running" ∧ nameTagMatched i.tags = true
                  ∧ now - dt2ts i.launchTime > age) → i.keyName.isSome
  | [], zs, _, i, hi, _ => by simp at hi
  | j :: is, zs, h, i, hi, hq => by
      cases hj : scanInstance region now age j with
      | error e =>
        rw [scanInstList, hj, exc_bind_error] at h
        exact absurd h (exc_error_ne_ok _ _)
      | ok o =>
        cases hr : scanInstList region now age is with
        | error e =>
          rw [scanInstList, hj, exc_bind_ok] at h
          simp only [hr, bind_pure_comp, exc_map_error] at h
          exact absurd h (exc_error_ne_ok _ _)
        | ok rest =>
          rcases List.mem_cons.mp hi with rfl | hi'
          · exact scanInstance_qualifying_keyName region now age i o hj hq
          · exact scanInstList_keyName region now age is rest hr i hi' hq

/-- The tag loop agrees with "carries a `Name = Packer Builder` tag" as soon
as at most one tag has key `Name` (the provider guarantees unique keys). -/
theorem firstNameMatch_iff :
    ∀ (ts : List Tag),
      ((ts.filter (fun t => t.key == "Name")).length ≤ 1) →
      (firstNameMatch ts = true ↔
        ∃ t ∈ ts, t.key = "Name" ∧ t.value = "Packer Builder")
  | [], _ => by simp [firstNameMatch]
  | t :: ts, hwf => by
      by_cases hk : t.key = "Name"
      · have hstep : firstNameMatch (t :: ts) = (t.value == "Packer Builder") := by
          simp [firstNameMatch, hk]
        by_cases hv : t.value = "Packer Builder"
        · rw [hstep]
          simp only [hv, beq_self_eq_true, true_iff]
          exact ⟨t, List.mem_cons_self t ts, hk, hv⟩
        · have hfil : (ts.filter (fun t => t.key == "Name")) = [] := by
            have h1 : (ts.filter (fun t => t.key == "Name")).length = 0 := by
              have h2 := hwf
              simp only [List.filter_cons, hk, beq_self_eq_true, if_true,
                List.length_cons] at h2
              omega
            exact List.length_eq_zero.mp h1
          rw [hstep]
          constructor
          · intro hb; exact absurd (by simpa using hb) hv
          · rintro ⟨t', ht', hk', hv'⟩
            rcases List.mem_cons.mp ht' with rfl | ht''
            · exact absurd hv' hv
            · have hmem : t' ∈ ts.filter (fun t => t.key == "Name") :=
                List.mem_filter.mpr ⟨ht'', by simp [hk']⟩
              rw [hfil] at hmem
              simp at hmem
      · have hwf' : ((ts.filter (fun t => t.key == "Name")).length ≤ 1) := by
          simpa [List.filter_cons, hk] using hwf
        have ih := firstNameMatch_iff ts hwf'
        have hstep : firstNameMatch (t :: ts) = firstNameMatch ts := by
          simp [firstNameMatch, hk]
        rw [hstep]
        constructor
        · intro hb
          rcases ih.mp hb with ⟨t', ht', hp⟩
          exact ⟨t', List.mem_cons_of_mem _ ht', hp⟩
        · rintro ⟨t', ht', hk', hv'⟩
          rcases List.mem_cons.mp ht' with rfl | ht''
          · exact absurd hk' hk
          · exact ih.mpr ⟨t', ht'', hk', hv'⟩

theorem nameTagMatched_iff (i : Ec2Instance) (hwf : atMostOneNameTag i) :
    nameTagMatched i.tags = true ↔ hasPackerNameTag i := by
  unfold atMostOneNameTag tagsOf at hwf
  unfold hasPackerNameTag tagsOf
  cases hts : i.tags with
  | none => simp [nameTagMatched, hts]
  | some ts =>
    rw [hts] at hwf
    simpa [nameTagMatched, hts] using firstNameMatch_iff ts (by simpa using hwf)

/-! ### A generic view of the three region-indexed scanners

All three `get_zombie_packer_*` functions recurse over the region list the
same way: run a per-region step, cons `(region, result)` onto the rest.
The lemmas below are proved once against that recursion shape. -/

section AssocScan

variable {α : Type} (step : String → Except String α)
variable (F : List String → Except String (List (String × α)))

theorem assocScan_mem
    (hcons : ∀ r rs, F (r :: rs) =
      step r >>= fun a => F rs >>= fun rest => pure ((r, a) :: rest)) :
    ∀ (regions : List String) (out : List (String × α)) (r : String),
      F regions = .ok out → r ∈ regions → ∃ a, step r = .ok a ∧ (r, a) ∈ out
  | [], _, r, _, hr => by simp at hr
  | r0 :: rs, out, r, h, hr => by
      rw [hcons] at h
      cases hs : step r0 with
      | error e => rw [hs, exc_bind_error] at h; exact absurd h (exc_error_ne_ok _ _)
      | ok a0 =>
        rw [hs, exc_bind_ok] at h
        cases hrest : F rs with
        | error e => rw [hrest, exc_bind_error] at h; exact absurd h (exc_error_ne_ok _ _)
        | ok rest =>
          rw [hrest, exc_bind_ok] at h
          have hout : out = (r0, a0) :: rest := (Except.ok.inj h).symm
          rcases List.mem_cons.mp hr with rfl | hr'
          · exact ⟨a0, hs, by rw [hout]; exact List.mem_cons_self _ _⟩
          · obtain ⟨a, h1, h2⟩ := assocScan_mem hcons rs rest r hrest hr'
            exact ⟨a, h1, by rw [hout]; exact List.mem_cons_of_mem _ h2⟩

theorem assocScan_rev (hnil : F [] = .ok [])
    (hcons : ∀ r rs, F (r :: rs) =
      step r >>= fun a => F rs >>= fun rest => pure ((r, a) :: rest)) :
    ∀ (regions : List String) (out : List (String × α)),
      F regions = .ok out →
      ∀ pr ∈ out, pr.1 ∈ regions ∧ step pr.1 = .ok pr.2
  | [], out, h, pr, hpr => by
      rw [hnil] at h
      rw [← Except.ok.inj h] at hpr
      simp at hpr
  | r0 :: rs, out, h, pr, hpr => by
      rw [hcons] at h
      cases hs : step r0 with
      | error e => rw [hs, exc_bind_error] at h; exact absurd h (exc_error_ne_ok _ _)
      | ok a0 =>
        rw [hs, exc_bind_ok] at h
        cases hrest : F rs with
        | error e => rw [hrest, exc_bind_error] at h; exact absurd h (exc_error_ne_ok _ _)
        | ok rest =>
          rw [hrest, exc_bind_ok] at h
          have hout : out = (r0, a0) :: rest := (Except.ok.inj h).symm
          rw [hout] at hpr
          rcases List.mem_cons.mp hpr with rfl | hpr'
          · exact ⟨List.mem_cons_self _ _, hs⟩
          · obtain ⟨h1, h2⟩ := assocScan_rev hnil hcons rs rest hrest pr hpr'
            exact ⟨List.mem_cons_of_mem _ h1, h2⟩

theorem assocScan_fst (hnil : F [] = .ok [])
    (hcons : ∀ r rs, F (r :: rs) =
      step r >>= fun a => F rs >>= fun rest => pure ((r, a) :: rest)) :
    ∀ (regions : List String) (out : List (String × α)),
      F regions = .ok out → out.map Prod.fst = regions
  | [], out, h => by
      rw [hnil] at h
      rw [← Except.ok.inj h]
      rfl
  | r0 :: rs, out, h => by
      rw [hcons] at h
      cases hs : step r0 with
      | error e => rw [hs, exc_bind_error] at h; exact absurd h (exc_error_ne_ok _ _)
      | ok a0 =>
        rw [hs, exc_bind_ok] at h
        cases hrest : F rs with
        | error e => rw [hrest, exc_bind_error] at h; exact absurd h (exc_error_ne_ok _ _)
        | ok rest =>
          rw [hrest, exc_bind_ok] at h
          rw [← Except.ok.inj h]
          simpa using assocScan_fst hnil hcons rs rest hrest

theorem assocScan_step_error
    (hcons : ∀ r rs, F (r :: rs) =
      step r >>= fun a => F rs >>= fun rest => pure ((r, a) :: rest)) :
    ∀ (regions : List String) (r : String),
      r ∈ regions → (∀ a, step r ≠ .ok a) →
      ∀ out, F regions ≠ .ok out
  | [], r, hr, _, _ => by simp at hr
  | r0 :: rs, r, hr, hbad, out => by
      intro h
      rw [hcons] at h
      cases hs : step r0 with
      | error e => rw [hs, exc_bind_error] at h; exact absurd h (exc_error_ne_ok _ _)
      | ok a0 =>
        rw [hs, exc_bind_ok] at h
        cases hrest : F rs with
        | error e => rw [hrest, exc_bind_error] at h; exact absurd h (exc_error_ne_ok _ _)
        | ok rest =>
          rcases List.mem_cons.mp hr with rfl | hr'
          · exact hbad a0 hs
          · exact assocScan_step_error hcons rs r hr' hbad rest hrest

end AssocScan

/-- Two bindings of the same key in an association list with nodup keys
are the same binding. -/
theorem assoc_nodup_eq {α : Type} :
    ∀ (l : List (String × α)), (l.map Prod.fst).Nodup →
      ∀ (r : String) (a b : α), (r, a) ∈ l → (r, b) ∈ l → a = b
  | [], _, r, a, b, ha, _ => by simp at ha
  | pr :: l, hnd, r, a, b, ha, hb => by
      have hnd' : (l.map Prod.fst).Nodup := (List.nodup_cons.mp hnd).2
      have hkey : pr.1 ∉ l.map Prod.fst := (List.nodup_cons.mp hnd).1
      rcases List.mem_cons.mp ha with rfl | ha' <;>
        rcases List.mem_cons.mp hb with hb' | hb'
      · exact (congrArg Prod.snd hb').symm
      · exact absurd (List.mem_map.mpr ⟨(r, b), hb', rfl⟩) hkey
      · rcases hb' with rfl
        exact absurd (List.mem_map.mpr ⟨(r, a), ha', rfl⟩) hkey
      · exact assoc_nodup_eq l hnd' r a b ha' hb'

/-! ### The three scanners satisfy the generic recursion shape -/

theorem instances_step_cons (p : Provider) (now age : Int) (r : String)
    (rs : List String) :
    get_zombie_packer_instances p now age (r :: rs) =
      (p.reservations r >>= fun resvs => scanInstList r now age resvs.flatten)
        >>= fun a => get_zombie_packer_instances p now age rs
        >>= fun rest => pure ((r, a) :: rest) := by
  cases hx : p.reservations r with
  | error e => simp [get_zombie_packer_instances, hx, exc_bind_error]
  | ok resvs =>
    cases hy : scanInstList r now age resvs.flatten with
    | error e =>
      simp [get_zombie_packer_instances, hx, hy, exc_bind_ok, exc_bind_error]
    | ok zs =>
      cases hz : get_zombie_packer_instances p now age rs with
      | error e =>
        simp [get_zombie_packer_instances, hx, hy, hz, exc_bind_ok, exc_bind_error]
      | ok rest =>
        simp [get_zombie_packer_instances, hx, hy, hz, exc_bind_ok]

theorem keys_step_cons (p : Provider) (r : String) (rs : List String) :
    get_zombie_packer_keys p (r :: rs) =
      (p.keyPairs r >>= fun pairs => pure
          ((pairs.filter (fun kp => filterMatch "packer *" kp.keyName)).map
            (fun kp => kp.keyName)))
        >>= fun a => get_zombie_packer_keys p rs
        >>= fun rest => pure ((r, a) :: rest) := by
  cases hx : p.keyPairs r with
  | error e => simp [get_zombie_packer_keys, hx, exc_bind_error]
  | ok pairs =>
    cases hz : get_zombie_packer_keys p rs with
    | error e => simp [get_zombie_packer_keys, hx, hz, exc_bind_ok, exc_bind_error]
    | ok rest => simp [get_zombie_packer_keys, hx, hz, exc_bind_ok]

theorem sgs_step_cons (p : Provider) (r : String) (rs : List String) :
    get_zombie_packer_security_groups p (r :: rs) =
      (p.securityGroups r >>= fun sgs => pure
          ((sgs.filter (fun sg => filterMatch "packer_*" sg.groupName)).map
            (fun sg => sg.groupName)))
        >>= fun a => get_zombie_packer_security_groups p rs
        >>= fun rest => pure ((r, a) :: rest) := by
  cases hx : p.securityGroups r with
  | error e => simp [get_zombie_packer_security_groups, hx, exc_bind_error]
  | ok sgs =>
    cases hz : get_zombie_packer_security_groups p rs with
    | error e =>
      simp [get_zombie_packer_security_groups, hx, hz, exc_bind_ok, exc_bind_error]
    | ok rest => simp [get_zombie_packer_security_groups, hx, hz, exc_bind_ok]

/-! ### The wildcard patterns of the two name filters are prefix patterns -/

theorem globMatch_star_any : ∀ (cs : List Char), globMatch ['*'] cs = true
  | [] => by simp [globMatch]
  | c :: cs => by
      have ih := globMatch_star_any cs
      simp [globMatch, ih]

theorem globMatch_prefix_star :
    ∀ (pre s : List Char), '*' ∉ pre →
      (globMatch (pre ++ ['*']) s = true ↔ pre <+: s)
  | [], s, _ => by simp [globMatch_star_any s]
  | c :: pre, [], hn => by
      have hc : c ≠ '*' := fun h => hn (h ▸ List.mem_cons_self _ _)
      simp [globMatch, hc]
  | c :: pre, c' :: cs, hn => by
      have hc : c ≠ '*' := fun h => hn (h ▸ List.mem_cons_self _ _)
      have hn' : '*' ∉ pre := fun h => hn (List.mem_cons_of_mem _ h)
      have ih := globMatch_prefix_star pre cs hn'
      simp [globMatch, hc, List.cons_prefix_cons, ih, Bool.and_eq_true, beq_iff_eq]

/-- The key-pair filter pattern `'packer *'` accepts exactly the names that
start with `"packer "`. -/
theorem filterMatch_packer_space (name : String) :
    filterMatch "packer *" name = true ↔ "packer ".toList <+: name.toList := by
  have h := globMatch_prefix_star "packer ".toList name.toList (by decide)
  simpa [filterMatch] using h

/-- The security-group filter pattern `'packer_*'` accepts exactly the names
that start with `"packer_"`. -/
theorem filterMatch_packer_underscore (name : String) :
    filterMatch "packer_*" name = true ↔ "packer_".toList <+: name.toList := by
  have h := globMatch_prefix_star "packer_".toList name.toList (by decide)
  simpa [filterMatch] using h

/-! ### Trace lemmas for the three cleanup passes -/

theorem instanceSeg_terminate_mem (f : FailureModel) (r : String)
    (ids : List String) (pr : String × List ZombieInstance) :
    Event.terminateCall r ids ∈ instanceSeg f pr ↔
      r = pr.1 ∧ pr.2 ≠ [] ∧ ids = pr.2.map (fun z => z.instance_id) := by
  by_cases hz : pr.2.length = 0
  · have hz' : pr.2 = [] := List.length_eq_zero.mp hz
    simp [instanceSeg, hz, hz']
  · have hz' : pr.2 ≠ [] := fun h => hz (by simp [h])
    by_cases hf : f.terminateFails pr.1 (pr.2.map (fun z => z.instance_id)) <;>
      simp [instanceSeg, hz, hz', hf, eq_comm, and_comm]

theorem instancePass_terminate_mem (f : FailureModel) (r : String)
    (ids : List String) (l : List (String × List ZombieInstance)) :
    Event.terminateCall r ids ∈ instancePass f l ↔
      ∃ zs, (r, zs) ∈ l ∧ zs ≠ [] ∧ ids = zs.map (fun z => z.instance_id) := by
  unfold instancePass
  rw [List.mem_flatMap]
  constructor
  · rintro ⟨pr, hpr, hmem⟩
    obtain ⟨h1, h2, h3⟩ := (instanceSeg_terminate_mem f r ids pr).mp hmem
    exact ⟨pr.2, by rw [h1]; exact hpr, h2, h3⟩
  · rintro ⟨zs, h1, h2, h3⟩
    exact ⟨(r, zs), h1, (instanceSeg_terminate_mem f r ids (r, zs)).mpr
      ⟨rfl, h2, h3⟩⟩

theorem instanceSeg_skip_mem (f : FailureModel) (r : String)
    (pr : String × List ZombieInstance) :
    Event.logSkipInstances r ∈ instanceSeg f pr ↔ r = pr.1 ∧ pr.2 = [] := by
  by_cases hz : pr.2.length = 0
  · have hz' : pr.2 = [] := List.length_eq_zero.mp hz
    simp [instanceSeg, hz, hz']
  · have hz' : pr.2 ≠ [] := fun h => hz (by simp [h])
    by_cases hf : f.terminateFails pr.1 (pr.2.map (fun z => z.instance_id)) <;>
      simp [instanceSeg, hz, hz', hf]

theorem instancePass_skip_mem (f : FailureModel) (r : String)
    (l : List (String × List ZombieInstance)) :
    Event.logSkipInstances r ∈ instancePass f l ↔ (r, []) ∈ l := by
  unfold instancePass
  rw [List.mem_flatMap]
  constructor
  · rintro ⟨pr, hpr, hmem⟩
    obtain ⟨h1, h2⟩ := (instanceSeg_skip_mem f r pr).mp hmem
    have : pr = (r, []) := by
      cases pr
      simp_all
    rw [← this]; exact hpr
  · intro h1
    exact ⟨(r, []), h1, (instanceSeg_skip_mem f r (r, [])).mpr ⟨rfl, rfl⟩⟩

theorem keyItemSeg_delete_mem (f : FailureModel) (r k r0 k0 : String) :
    Event.deleteKeyCall r k ∈ keyItemSeg f r0 k0 ↔ r = r0 ∧ k = k0 := by
  by_cases hf : f.deleteKeyFails r0 k0 <;>
    simp [keyItemSeg, hf, eq_comm]

theorem keyDeleteLoop_delete_mem (f : FailureModel) (r k r0 : String)
    (ks : List String) :
    Event.deleteKeyCall r k ∈ keyDeleteLoop f r0 ks ↔ r = r0 ∧ k ∈ ks := by
  unfold keyDeleteLoop
  rw [List.mem_flatMap]
  constructor
  · rintro ⟨k0, hk0, hmem⟩
    obtain ⟨h1, h2⟩ := (keyItemSeg_delete_mem f r k r0 k0).mp hmem
    exact ⟨h1, h2 ▸ hk0⟩
  · rintro ⟨h1, h2⟩
    exact ⟨k, h2, (keyItemSeg_delete_mem f r k r0 k).mpr ⟨h1, rfl⟩⟩

theorem keySeg_delete_mem (f : FailureModel) (r k : String)
    (pr : String × List String) :
    Event.deleteKeyCall r k ∈ keySeg f pr ↔ r = pr.1 ∧ k ∈ pr.2 := by
  by_cases hz : pr.2.length = 0
  · have hz' : pr.2 = [] := List.length_eq_zero.mp hz
    simp [keySeg, hz, hz']
  · simp [keySeg, hz, keyDeleteLoop_delete_mem]

theorem keyPass_delete_mem (f : FailureModel) (r k : String)
    (l : List (String × List String)) :
    Event.deleteKeyCall r k ∈ keyPass f l ↔ ∃ ks, (r, ks) ∈ l ∧ k ∈ ks := by
  unfold keyPass
  rw [List.mem_flatMap]
  constructor
  · rintro ⟨pr, hpr, hmem⟩
    obtain ⟨h1, h2⟩ := (keySeg_delete_mem f r k pr).mp hmem
    exact ⟨pr.2, by rw [h1]; exact hpr, h2⟩
  · rintro ⟨ks, h1, h2⟩
    exact ⟨(r, ks), h1, (keySeg_delete_mem f r k (r, ks)).mpr ⟨rfl, h2⟩⟩

theorem keySeg_skip_mem (f : FailureModel) (r : String)
    (pr : String × List String) :
    Event.logSkipKeys r ∈ keySeg f pr ↔ r = pr.1 ∧ pr.2 = [] := by
  by_cases hz : pr.2.length = 0
  · have hz' : pr.2 = [] := List.length_eq_zero.mp hz
    simp [keySeg, hz, hz']
  · have hz' : pr.2 ≠ [] := fun h => hz (by simp [h])
    simp only [keySeg, if_neg hz, List.mem_cons]
    constructor
    · rintro (he | he)
      · exact absurd he (by simp)
      · exact absurd he (by
          unfold keyDeleteLoop
          rw [List.mem_flatMap]
          rintro ⟨k0, _, hmem⟩
          by_cases hf : f.deleteKeyFails pr.1 k0 <;> simp [keyItemSeg, hf] at hmem)
    · rintro ⟨_, h2⟩
      exact absurd h2 hz'

theorem keyPass_skip_mem (f : FailureModel) (r : String)
    (l : List (String × List String)) :
    Event.logSkipKeys r ∈ keyPass f l ↔ (r, []) ∈ l := by
  unfold keyPass
  rw [List.mem_flatMap]
  constructor
  · rintro ⟨pr, hpr, hmem⟩
    obtain ⟨h1, h2⟩ := (keySeg_skip_mem f r pr).mp hmem
    have hpr' : pr = (r, []) := by cases pr; simp_all
    rw [← hpr']; exact hpr
  · intro h1
    exact ⟨(r, []), h1, (keySeg_skip_mem f r (r, [])).mpr ⟨rfl, rfl⟩⟩

theorem sgItemSeg_delete_mem (f : FailureModel) (r g r0 g0 : String) :
    Event.deleteSgCall r g ∈ sgItemSeg f r0 g0 ↔ r = r0 ∧ g = g0 := by
  by_cases hf : f.deleteSgFails r0 g0 <;>
    simp [sgItemSeg, hf, eq_comm]

theorem sgDeleteLoop_delete_mem (f : FailureModel) (r g r0 : String)
    (gs : List String) :
    Event.deleteSgCall r g ∈ sgDeleteLoop f r0 gs ↔ r = r0 ∧ g ∈ gs := by
  unfold sgDeleteLoop
  rw [List.mem_flatMap]
  constructor
  · rintro ⟨g0, hg0, hmem⟩
    obtain ⟨h1, h2⟩ := (sgItemSeg_delete_mem f r g r0 g0).mp hmem
    exact ⟨h1, h2 ▸ hg0⟩
  · rintro ⟨h1, h2⟩
    exact ⟨g, h2, (sgItemSeg_delete_mem f r g r0 g).mpr ⟨h1, rfl⟩⟩

theorem sgSeg_delete_mem (f : FailureModel) (r g : String)
    (pr : String × List String) :
    Event.deleteSgCall r g ∈ sgSeg f pr ↔ r = pr.1 ∧ g ∈ pr.2 := by
  by_cases hz : pr.2.length = 0
  · have hz' : pr.2 = [] := List.length_eq_zero.mp hz
    simp [sgSeg, hz, hz']
  · simp [sgSeg, hz, sgDeleteLoop_delete_mem]

theorem sgPass_delete_mem (f : FailureModel) (r g : String)
    (l : List (String × List String)) :
    Event.deleteSgCall r g ∈ sgPass f l ↔ ∃ gs, (r, gs) ∈ l ∧ g ∈ gs := by
  unfold sgPass
  rw [List.mem_flatMap]
  constructor
  · rintro ⟨pr, hpr, hmem⟩
    obtain ⟨h1, h2⟩ := (sgSeg_delete_mem f r g pr).mp hmem
    exact ⟨pr.2, by rw [h1]; exact hpr, h2⟩
  · rintro ⟨gs, h1, h2⟩
    exact ⟨(r, gs), h1, (sgSeg_delete_mem f r g (r, gs)).mpr ⟨rfl, h2⟩⟩

theorem sgSeg_skip_mem (f : FailureModel) (r : String)
    (pr : String × List String) :
    Event.logSkipSgs r ∈ sgSeg f pr ↔ r = pr.1 ∧ pr.2 = [] := by
  by_cases hz : pr.2.length = 0
  · have hz' : pr.2 = [] := List.length_eq_zero.mp hz
    simp [sgSeg, hz, hz']
  · have hz' : pr.2 ≠ [] := fun h => hz (by simp [h])
    simp only [sgSeg, if_neg hz, List.mem_cons]
    constructor
    · rintro (he | he)
      · exact absurd he (by simp)
      · exact absurd he (by
          unfold sgDeleteLoop
          rw [List.mem_flatMap]
          rintro ⟨g0, _, hmem⟩
          by_cases hf : f.deleteSgFails pr.1 g0 <;> simp [sgItemSeg, hf] at hmem)
    · rintro ⟨_, h2⟩
      exact absurd h2 hz'

theorem sgPass_skip_mem (f : FailureModel) (r : String)
    (l : List (String × List String)) :
    Event.logSkipSgs r ∈ sgPass f l ↔ (r, []) ∈ l := by
  unfold sgPass
  rw [List.mem_flatMap]
  constructor
  · rintro ⟨pr, hpr, hmem⟩
    obtain ⟨h1, h2⟩ := (sgSeg_skip_mem f r pr).mp hmem
    have hpr' : pr = (r, []) := by cases pr; simp_all
    rw [← hpr']; exact hpr
  · intro h1
    exact ⟨(r, []), h1, (sgSeg_skip_mem f r (r, [])).mpr ⟨rfl, rfl⟩⟩

/-! ### Every event of a pass belongs to that pass -/

theorem instanceSeg_kind (f : FailureModel) (pr : String × List ZombieInstance) :
    ∀ e ∈ instanceSeg f pr, e.passKind = 1 := by
  intro e he
  by_cases hz : pr.2.length = 0
  · simp only [instanceSeg, if_pos hz, List.mem_singleton] at he
    rw [he]; rfl
  · by_cases hf : f.terminateFails pr.1 (pr.2.map (fun z => z.instance_id)) <;>
      · simp only [instanceSeg, if_neg hz, hf, List.cons_append, List.mem_cons,
          if_pos, if_neg, List.mem_singleton, List.nil_append] at he
        rcases he with rfl | rfl | he <;> try rfl
        simp_all [Event.passKind]

theorem instancePass_kind (f : FailureModel)
    (l : List (String × List ZombieInstance)) :
    ∀ e ∈ instancePass f l, e.passKind = 1 := by
  intro e he
  obtain ⟨pr, _, hmem⟩ := List.mem_flatMap.mp he
  exact instanceSeg_kind f pr e hmem

theorem keySeg_kind (f : FailureModel) (pr : String × List String) :
    ∀ e ∈ keySeg f pr, e.passKind = 2 := by
  intro e he
  by_cases hz : pr.2.length = 0
  · simp only [keySeg, if_pos hz, List.mem_singleton] at he
    rw [he]; rfl
  · simp only [keySeg, if_neg hz, List.mem_cons] at he
    rcases he with rfl | he
    · rfl
    · obtain ⟨k0, _, hmem⟩ := List.mem_flatMap.mp he
      by_cases hf : f.deleteKeyFails pr.1 k0 <;>
        · simp only [keyItemSeg, hf, List.cons_append, List.mem_cons,
            List.mem_singleton, List.nil_append] at hmem
          rcases hmem with rfl | rfl | hmem <;> try rfl
          simp_all [Event.passKind]

theorem keyPass_kind (f : FailureModel) (l : List (String × List String)) :
    ∀ e ∈ keyPass f l, e.passKind = 2 := by
  intro e he
  obtain ⟨pr, _, hmem⟩ := List.mem_flatMap.mp he
  exact keySeg_kind f pr e hmem

theorem sgSeg_kind (f : FailureModel) (pr : String × List String) :
    ∀ e ∈ sgSeg f pr, e.passKind = 3 := by
  intro e he
  by_cases hz : pr.2.length = 0
  · simp only [sgSeg, if_pos hz, List.mem_singleton] at he
    rw [he]; rfl
  · simp only [sgSeg, if_neg hz, List.mem_cons] at he
    rcases he with rfl | he
    · rfl
    · obtain ⟨g0, _, hmem⟩ := List.mem_flatMap.mp he
      by_cases hf : f.deleteSgFails pr.1 g0 <;>
        · simp only [sgItemSeg, hf, List.cons_append, List.mem_cons,
            List.mem_singleton, List.nil_append] at hmem
          rcases hmem with rfl | rfl | hmem <;> try rfl
          simp_all [Event.passKind]

theorem sgPass_kind (f : FailureModel) (l : List (String × List String)) :
    ∀ e ∈ sgPass f l, e.passKind = 3 := by
  intro e he
  obtain ⟨pr, _, hmem⟩ := List.mem_flatMap.mp he
  exact sgSeg_kind f pr e hmem

/-! ### Counting mutation calls -/

theorem countP_flatMap {α : Type} (g : α → List Event) (p : Event → Bool) :
    ∀ (l : List α),
      (l.flatMap g).countP p = (l.map (fun a => (g a).countP p)).sum
  | [] => rfl
  | a :: l => by
      simp [List.flatMap_cons, List.countP_append, countP_flatMap g p l]

theorem instanceSeg_countP (f : FailureModel) (r : String)
    (pr : String × List ZombieInstance) :
    (instanceSeg f pr).countP (isTerminateFor r) =
      if pr.1 = r then (if pr.2 = [] then 0 else 1) else 0 := by
  obtain ⟨r0, zs⟩ := pr
  by_cases hz : zs.length = 0
  · have hz' : zs = [] := List.length_eq_zero.mp hz
    by_cases hr : r0 = r <;> simp [instanceSeg, hz, hz', hr, isTerminateFor]
  · have hz' : zs ≠ [] := fun h => hz (by simp [h])
    by_cases hr : r0 = r
    · subst hr
      by_cases hf : f.terminateFails r0 (zs.map (fun z => z.instance_id)) <;>
        simp [instanceSeg, hz, hz', hf, isTerminateFor]
    · by_cases hf : f.terminateFails r0 (zs.map (fun z => z.instance_id)) <;>
        simp [instanceSeg, hz, hz', hf, hr, isTerminateFor]

theorem instancePass_countP (f : FailureModel) (r : String)
    (l : List (String × List ZombieInstance)) :
    (instancePass f l).countP (isTerminateFor r) =
      (l.map (fun pr => if pr.1 = r then (if pr.2 = [] then 0 else 1) else 0)).sum := by
  unfold instancePass
  rw [countP_flatMap]
  congr 1
  exact List.map_congr_left (fun pr _ => instanceSeg_countP f r pr)

theorem keyItemSeg_countP (f : FailureModel) (r k r0 k0 : String) :
    (keyItemSeg f r0 k0).countP (isDeleteKey r k) =
      if r0 = r ∧ k0 = k then 1 else 0 := by
  by_cases hr : r0 = r
  · subst hr
    by_cases hk : k0 = k
    · subst hk
      by_cases hf : f.deleteKeyFails r0 k0 <;>
        simp [keyItemSeg, hf, isDeleteKey]
    · by_cases hf : f.deleteKeyFails r0 k0 <;>
        simp [keyItemSeg, hf, hk, isDeleteKey]
  · by_cases hf : f.deleteKeyFails r0 k0 <;>
      simp [keyItemSeg, hf, hr, isDeleteKey]

theorem keyDeleteLoop_countP (f : FailureModel) (r k r0 : String) :
    ∀ (ks : List String),
      (keyDeleteLoop f r0 ks).countP (isDeleteKey r k) =
        if r0 = r then ks.count k else 0
  | [] => by by_cases hr : r0 = r <;> simp [keyDeleteLoop, hr]
  | k0 :: ks => by
      have ih := keyDeleteLoop_countP f r k r0 ks
      have hcons : keyDeleteLoop f r0 (k0 :: ks)
          = keyItemSeg f r0 k0 ++ keyDeleteLoop f r0 ks := by
        simp [keyDeleteLoop, List.flatMap_cons]
      rw [hcons, List.countP_append, keyItemSeg_countP, ih]
      by_cases hr : r0 = r <;> by_cases hk : k0 = k <;>
        simp [hr, hk, List.count_cons] <;> omega

theorem keySeg_countP (f : FailureModel) (r k : String)
    (pr : String × List String) :
    (keySeg f pr).countP (isDeleteKey r k) =
      if pr.1 = r then pr.2.count k else 0 := by
  by_cases hz : pr.2.length = 0
  · have hz' : pr.2 = [] := List.length_eq_zero.mp hz
    by_cases hr : pr.1 = r <;> simp [keySeg, hz, hz', hr, isDeleteKey]
  · simp only [keySeg, if_neg hz]
    rw [List.countP_cons_of_neg _ _ (by simp [isDeleteKey])]
    exact keyDeleteLoop_countP f r k pr.1 pr.2

theorem keyPass_countP (f : FailureModel) (r k : String)
    (l : List (String × List String)) :
    (keyPass f l).countP (isDeleteKey r k) =
      (l.map (fun pr => if pr.1 = r then pr.2.count k else 0)).sum := by
  unfold keyPass
  rw [countP_flatMap]
  congr 1
  exact List.map_congr_left (fun pr _ => keySeg_countP f r k pr)

theorem sgItemSeg_countP (f : FailureModel) (r g r0 g0 : String) :
    (sgItemSeg f r0 g0).countP (isDeleteSg r g) =
      if r0 = r ∧ g0 = g then 1 else 0 := by
  by_cases hr : r0 = r
  · subst hr
    by_cases hg : g0 = g
    · subst hg
      by_cases hf : f.deleteSgFails r0 g0 <;>
        simp [sgItemSeg, hf, isDeleteSg]
    · by_cases hf : f.deleteSgFails r0 g0 <;>
        simp [sgItemSeg, hf, hg, isDeleteSg]
  · by_cases hf : f.deleteSgFails r0 g0 <;>
      simp [sgItemSeg, hf, hr, isDeleteSg]

theorem sgDeleteLoop_countP (f : FailureModel) (r g r0 : String) :
    ∀ (gs : List String),
      (sgDeleteLoop f r0 gs).countP (isDeleteSg r g) =
        if r0 = r then gs.count g else 0
  | [] => by by_cases hr : r0 = r <;> simp [sgDeleteLoop, hr]
  | g0 :: gs => by
      have ih := sgDeleteLoop_countP f r g r0 gs
      have hcons : sgDeleteLoop f r0 (g0 :: gs)
          = sgItemSeg f r0 g0 ++ sgDeleteLoop f r0 gs := by
        simp [sgDeleteLoop, List.flatMap_cons]
      rw [hcons, List.countP_append, sgItemSeg_countP, ih]
      by_cases hr : r0 = r <;> by_cases hg : g0 = g <;>
        simp [hr, hg, List.count_cons] <;> omega

theorem sgSeg_countP (f : FailureModel) (r g : String)
    (pr : String × List String) :
    (sgSeg f pr).countP (isDeleteSg r g) =
      if pr.1 = r then pr.2.count g else 0 := by
  by_cases hz : pr.2.length = 0
  · have hz' : pr.2 = [] := List.length_eq_zero.mp hz
    by_cases hr : pr.1 = r <;> simp [sgSeg, hz, hz', hr, isDeleteSg]
  · simp only [sgSeg, if_neg hz]
    rw [List.countP_cons_of_neg _ _ (by simp [isDeleteSg])]
    exact sgDeleteLoop_countP f r g pr.1 pr.2

theorem sgPass_countP (f : FailureModel) (r g : String)
    (l : List (String × List String)) :
    (sgPass f l).countP (isDeleteSg r g) =
      (l.map (fun pr => if pr.1 = r then pr.2.count g else 0)).sum := by
  unfold sgPass
  rw [countP_flatMap]
  congr 1
  exact List.map_congr_left (fun pr _ => sgSeg_countP f r g pr)

/-- In an association list whose keys avoid `r`, the per-`r` contributions
vanish. -/
theorem assoc_map_sum_notin {α : Type} (g : α → Nat) (r : String) :
    ∀ (l : List (String × α)), r ∉ l.map Prod.fst →
      (l.map (fun pr => if pr.1 = r then g pr.2 else 0)).sum = 0
  | [], _ => rfl
  | pr :: l, hn => by
      have h1 : pr.1 ≠ r := fun h => hn (by simp [h.symm])
      have h2 : r ∉ l.map Prod.fst := fun h => hn (by simp [h])
      simp [h1, assoc_map_sum_notin g r l h2]

/-- With nodup keys, the sum of per-`r` contributions is the contribution of
the unique binding of `r`. -/
theorem assoc_map_sum_nodup {α : Type} (g : α → Nat) (r : String) (a : α) :
    ∀ (l : List (String × α)), (l.map Prod.fst).Nodup → (r, a) ∈ l →
      (l.map (fun pr => if pr.1 = r then g pr.2 else 0)).sum = g a
  | [], _, hm => by simp at hm
  | pr :: l, hnd, hm => by
      have hkey : pr.1 ∉ l.map Prod.fst := (List.nodup_cons.mp hnd).1
      have hnd' : (l.map Prod.fst).Nodup := (List.nodup_cons.mp hnd).2
      rcases List.mem_cons.mp hm with rfl | hm'
      · have hz : (l.map (fun pr => if pr.1 = r then g pr.2 else 0)).sum = 0 :=
          assoc_map_sum_notin g r l hkey
        simp [hz]
      · have h1 : pr.1 ≠ r := by
          intro h
          exact hkey (h ▸ List.mem_map.mpr ⟨(r, a), hm', rfl⟩)
        simp [h1, assoc_map_sum_nodup g r a l hnd' hm']

/-! ### Decomposing a successful run -/

theorem lambda_handler_ok_eq {α β : Type} (ev : α) (ctx : β) (p : Provider)
    (f : FailureModel) (now age : Int) (regions : List String)
    (tr : List Event)
    (h : lambda_handler ev ctx p f now age regions = .ok tr) :
    ∃ zi zk zg,
      get_zombie_packer_instances p now age regions = .ok zi ∧
      get_zombie_packer_keys p regions = .ok zk ∧
      get_zombie_packer_security_groups p regions = .ok zg ∧
      tr = (Event.logScanInstances regions.length :: instancePass f zi)
        ++ (Event.logScanKeys regions.length :: keyPass f zk)
        ++ (Event.logScanSgs regions.length :: sgPass f zg) := by
  unfold lambda_handler at h
  cases h1 : get_zombie_packer_instances p now age regions with
  | error e => rw [h1, exc_bind_error] at h; exact absurd h (exc_error_ne_ok _ _)
  | ok zi =>
    rw [h1, exc_bind_ok] at h
    cases h2 : get_zombie_packer_keys p regions with
    | error e => rw [h2, exc_bind_error] at h; exact absurd h (exc_error_ne_ok _ _)
    | ok zk =>
      rw [h2, exc_bind_ok] at h
      cases h3 : get_zombie_packer_security_groups p regions with
      | error e =>
        simp only [h3, bind_pure_comp, exc_map_error] at h
        exact absurd h (exc_error_ne_ok _ _)
      | ok zg =>
        simp only [h3, bind_pure_comp, exc_map_ok, Except.ok.injEq] at h
        exact ⟨zi, zk, zg, rfl, rfl, rfl, h.symm⟩

theorem lambda_handler_ok_of_scans {α β : Type} (ev : α) (ctx : β)
    (p : Provider) (f : FailureModel) (now age : Int) (regions : List String)
    (zi : List (String × List ZombieInstance))
    (zk zg : List (String × List String))
    (h1 : get_zombie_packer_instances p now age regions = .ok zi)
    (h2 : get_zombie_packer_keys p regions = .ok zk)
    (h3 : get_zombie_packer_security_groups p regions = .ok zg) :
    lambda_handler ev ctx p f now age regions =
      .ok ((Event.logScanInstances regions.length :: instancePass f zi)
        ++ (Event.logScanKeys regions.length :: keyPass f zk)
        ++ (Event.logScanSgs regions.length :: sgPass f zg)) := by
  unfold lambda_handler
  rw [h1, exc_bind_ok, h2, exc_bind_ok]
  simp only [h3, bind_pure_comp, exc_map_ok]

theorem lambda_handler_error_of_instances {α β : Type} (ev : α) (ctx : β)
    (p : Provider) (f : FailureModel) (now age : Int) (regions : List String)
    (h1 : ∀ zi, get_zombie_packer_instances p now age regions ≠ .ok zi) :
    ∃ m, lambda_handler ev ctx p f now age regions = .error m := by
  cases h : lambda_handler ev ctx p f now age regions with
  | error m => exact ⟨m, rfl⟩
  | ok tr =>
    obtain ⟨zi, _, _, hzi, _⟩ := lambda_handler_ok_eq ev ctx p f now age regions tr h
    exact absurd hzi (h1 zi)

theorem lambda_handler_error_of_keys {α β : Type} (ev : α) (ctx : β)
    (p : Provider) (f : FailureModel) (now age : Int) (regions : List String)
    (h2 : ∀ zk, get_zombie_packer_keys p regions ≠ .ok zk) :
    ∃ m, lambda_handler ev ctx p f now age regions = .error m := by
  cases h : lambda_handler ev ctx p f now age regions with
  | error m => exact ⟨m, rfl⟩
  | ok tr =>
    obtain ⟨_, zk, _, _, hzk, _⟩ := lambda_handler_ok_eq ev ctx p f now age regions tr h
    exact absurd hzk (h2 zk)

theorem lambda_handler_error_of_sgs {α β : Type} (ev : α) (ctx : β)
    (p : Provider) (f : FailureModel) (now age : Int) (regions : List String)
    (h3 : ∀ zg, get_zombie_packer_security_groups p regions ≠ .ok zg) :
    ∃ m, lambda_handler ev ctx p f now age regions = .error m := by
  cases h : lambda_handler ev ctx p f now age regions with
  | error m => exact ⟨m, rfl⟩
  | ok tr =>
    obtain ⟨_, _, zg, _, _, hzg, _⟩ := lambda_handler_ok_eq ev ctx p f now age regions tr h
    exact absurd hzg (h3 zg)

/-! ### Small helpers used by the claim theorems -/

theorem zombieOf_region (region : String) (now age : Int) (i : Ec2Instance)
    (z : ZombieInstance) (h : zombieOf region now age i = some z) :
    z.region = region := by
  unfold zombieOf at h
  by_cases hs : (i.stateName == "running") = true
  · by_cases ht : nameTagMatched i.tags = true
    · by_cases ha : now - dt2ts i.launchTime > age
      · rw [if_pos hs, if_pos ht, if_pos ha] at h
        cases hk : i.keyName with
        | none => rw [hk] at h; exact absurd h (by simp)
        | some k =>
          rw [hk] at h
          simp only [Option.map_some', Option.some.injEq] at h
          rw [← h]
      · rw [if_pos hs, if_pos ht, if_neg ha] at h; exact absurd h (by simp)
    · rw [if_pos hs, if_neg ht] at h; exact absurd h (by simp)
  · rw [if_neg hs] at h; exact absurd h (by simp)

theorem isTerminateFor_kind (r : String) (e : Event)
    (h : isTerminateFor r e = true) : e.passKind = 1 := by
  cases e <;> simp_all [isTerminateFor, Event.passKind]

theorem isDeleteKey_kind (r k : String) (e : Event)
    (h : isDeleteKey r k e = true) : e.passKind = 2 := by
  have he : e = Event.deleteKeyCall r k := by simpa [isDeleteKey] using h
  rw [he]; rfl

theorem isDeleteSg_kind (r g : String) (e : Event)
    (h : isDeleteSg r g e = true) : e.passKind = 3 := by
  have he : e = Event.deleteSgCall r g := by simpa [isDeleteSg] using h
  rw [he]; rfl

/-- The per-region step of the instance scanner, as used with the generic
association-scan lemmas. -/
theorem instances_step (p : Provider) (now age : Int) (r : String)
    (resvs : List (List Ec2Instance)) (zs : List ZombieInstance)
    (hres : p.reservations r = .ok resvs)
    (hscan : scanInstList r now age resvs.flatten = .ok zs) :
    (p.reservations r >>= fun rv => scanInstList r now age rv.flatten) = .ok zs := by
  rw [hres, exc_bind_ok, hscan]

/-! ### Concrete evaluations on the sample provider

`globMatch` is defined by well-founded recursion, so concrete filter
decisions are obtained through the prefix characterisation rather than by
kernel evaluation. -/

theorem filterMatch_ex1 : filterMatch "packer *" "packer k1" = true :=
  (filterMatch_packer_space _).mpr (by decide)

theorem filterMatch_ex2 : filterMatch "packer *" "deploy-key" = false := by
  cases hb : filterMatch "packer *" "deploy-key" with
  | false => rfl
  | true => exact absurd ((filterMatch_packer_space _).mp hb) (by decide)

theorem filterMatch_ex3 : filterMatch "packer_*" "packer_sg1" = true :=
  (filterMatch_packer_underscore _).mpr (by decide)

theorem filterMatch_ex4 : filterMatch "packer_*" "default" = false := by
  cases hb : filterMatch "packer_*" "default" with
  | false => rfl
  | true => exact absurd ((filterMatch_packer_underscore _).mp hb) (by decide)

theorem keys_scan_sample :
    get_zombie_packer_keys sampleProvider sampleRegions =
      .ok [("us-east-1", ["packer k1"]), ("eu-west-1", [])] := by
  simp [get_zombie_packer_keys, sampleProvider, sampleRegions,
    filterMatch_ex1, filterMatch_ex2, exc_bind_ok]

theorem sgs_scan_sample :
    get_zombie_packer_security_groups sampleProvider sampleRegions =
      .ok [("us-east-1", ["packer_sg1"]), ("eu-west-1", [])] := by
  simp [get_zombie_packer_security_groups, sampleProvider, sampleRegions,
    filterMatch_ex3, filterMatch_ex4, exc_bind_ok]

theorem instances_scan_sample :
    get_zombie_packer_instances sampleProvider sampleNow max_age sampleRegions =
      .ok [("us-east-1", [sampleZombie]), ("eu-west-1", [])] := rfl

/-! ## The claims -/

/-- **C1.**  For every region and every instance returned by the provider's
list-instances call, the Instance Scanner emits a ZombieInstance record for
that instance iff its state is `"running"`, it carries a `Name` tag with
value exactly `"Packer Builder"`, and its age exceeds the threshold; the
region's output list is exactly the in-order list of records of the
qualifying instances (each exactly once, provider order), and
non-qualifying instances never appear.  The tag hypothesis `hwf` is the
provider's guarantee that tag keys are unique per instance. -/
theorem C1_instance_scanner_iff (p : Provider) (now age : Int)
    (regions : List String) (out : List (String × List ZombieInstance))
    (region : String) (resvs : List (List Ec2Instance))
    (hreg : region ∈ regions)
    (hres : p.reservations region = .ok resvs)
    (hok : get_zombie_packer_instances p now age regions = .ok out)
    (hwf : ∀ i ∈ resvs.flatten, atMostOneNameTag i) :
    ∃ zs, (region, zs) ∈ out ∧
      zs = resvs.flatten.filterMap (zombieOf region now age) ∧
      ∀ i ∈ resvs.flatten,
        ((zombieOf region now age i).isSome ↔
          (i.stateName = "running" ∧ hasPackerNameTag i
            ∧ now - dt2ts i.launchTime > age)) := by
  obtain ⟨a, hstep, hmem⟩ :=
    assocScan_mem (fun r => p.reservations r >>= fun rv => scanInstList r now age rv.flatten)
      (get_zombie_packer_instances p now age)
      (instances_step_cons p now age) regions out region hok hreg
  rw [hres, exc_bind_ok] at hstep
  refine ⟨a, hmem, scanInstList_ok_eq region now age resvs.flatten a hstep, ?_⟩
  intro i hi
  constructor
  · intro hsome
    by_cases hs : (i.stateName == "running") = true
    · by_cases ht : nameTagMatched i.tags = true
      · by_cases ha : now - dt2ts i.launchTime > age
        · exact ⟨by simpa using hs, (nameTagMatched_iff i (hwf i hi)).mp ht, ha⟩
        · simp [zombieOf, hs, ht, ha] at hsome
      · simp [zombieOf, hs, ht] at hsome
    · simp [zombieOf, hs] at hsome
  · rintro ⟨hs, ht, ha⟩
    have ht' : nameTagMatched i.tags = true := (nameTagMatched_iff i (hwf i hi)).mpr ht
    have hk : i.keyName.isSome :=
      scanInstList_keyName region now age resvs.flatten a hstep i hi ⟨hs, ht', ha⟩
    obtain ⟨k, hk'⟩ := Option.isSome_iff_exists.mp hk
    simp [zombieOf, hs, ht', ha, hk']

/-- Witness for C1 on the sample provider: region `us-east-1` of
`sampleRegions`, whose single reservation holds one old Packer Builder
instance. -/
theorem C1_instance_scanner_iff_witness :
    ∃ zs, ("us-east-1", zs) ∈ [("us-east-1", [sampleZombie]), ("eu-west-1", [])] ∧
      zs = [[sampleOldPacker]].flatten.filterMap
            (zombieOf "us-east-1" sampleNow max_age) ∧
      ∀ i ∈ [[sampleOldPacker]].flatten,
        ((zombieOf "us-east-1" sampleNow max_age i).isSome ↔
          (i.stateName = "running" ∧ hasPackerNameTag i
            ∧ sampleNow - dt2ts i.launchTime > max_age)) :=
  C1_instance_scanner_iff sampleProvider sampleNow max_age sampleRegions
    [("us-east-1", [sampleZombie]), ("eu-west-1", [])] "us-east-1"
    [[sampleOldPacker]] (by decide) (by rfl) (by rfl) (by decide)

/-- **C3.**  The Instance Scanner computes an instance's age as the current
Unix timestamp minus the launch timestamp (`dt2ts`, i.e. `calendar.timegm`
of the UTC time tuple, so both sides are UTC epoch seconds), and it flags
the instance only when this age strictly exceeds the threshold: a flagged
record implies `now - dt2ts(launch) > threshold`, and when the age does not
exceed the threshold the instance is skipped regardless of its other
attributes. -/
theorem C3_age_utc_and_threshold (region : String) (now age : Int)
    (i : Ec2Instance) :
    (∀ z, scanInstance region now age i = .ok (some z) →
        now - dt2ts i.launchTime > age) ∧
    (now - dt2ts i.launchTime ≤ age →
        scanInstance region now age i = .ok none) := by
  constructor
  · intro z hz
    by_cases hs : (i.stateName == "running") = true
    · by_cases ht : nameTagMatched i.tags = true
      · by_cases ha : now - dt2ts i.launchTime > age
        · exact ha
        · simp [scanInstance, hs, ht, ha] at hz
      · simp [scanInstance, hs, ht] at hz
    · simp [scanInstance, hs] at hz
  · intro hle
    have ha : ¬ (now - dt2ts i.launchTime > age) := not_lt.mpr hle
    by_cases hs : (i.stateName == "running") = true <;>
      by_cases ht : nameTagMatched i.tags = true <;>
        simp [scanInstance, hs, ht, ha]

/-- Witness for C3: the sample instance is 45005 s old, so a flagged scan
proves `45005 > 21600`; with "now" set to the launch instant the age is 0
and the instance is skipped. -/
theorem C3_age_utc_and_threshold_witness :
    sampleNow - dt2ts sampleOldPacker.launchTime > max_age ∧
    scanInstance "us-east-1" (dt2ts sampleOldPacker.launchTime) max_age
      sampleOldPacker = .ok none :=
  ⟨(C3_age_utc_and_threshold "us-east-1" sampleNow max_age sampleOldPacker).1
      sampleZombie (by rfl),
   (C3_age_utc_and_threshold "us-east-1" (dt2ts sampleOldPacker.launchTime)
      max_age sampleOldPacker).2 (by decide)⟩

/-- **C4.**  The age comparison is strictly greater-than, against the
in-source constant `max_age = 21600`: an otherwise-qualifying instance
(running, matching Name tag, key pair present) whose age equals the
threshold exactly is not flagged, and one whose age is the threshold plus
one second is flagged. -/
theorem C4_strict_threshold (region : String) (now : Int) (i : Ec2Instance)
    (k : String) (hs : i.stateName = "running")
    (ht : nameTagMatched i.tags = true) (hk : i.keyName = some k) :
    max_age = 21600 ∧
    (now - dt2ts i.launchTime = max_age →
      scanInstance region now max_age i = .ok none) ∧
    (now - dt2ts i.launchTime = max_age + 1 →
      scanInstance region now max_age i =
        .ok (some { region := region, instance_id := i.instanceId,
                    keyname := k, security_groups := i.securityGroups })) := by
  refine ⟨rfl, ?_, ?_⟩
  · intro heq
    have ha : ¬ (now - dt2ts i.launchTime > max_age) := by omega
    simp [scanInstance, hs, ht, ha]
  · intro heq
    have ha : now - dt2ts i.launchTime > max_age := by omega
    simp [scanInstance, hs, ht, ha, hk]

/-- Witness for C4 at the boundary: age exactly 21600 is skipped, age 21601
is flagged. -/
theorem C4_strict_threshold_witness :
    (scanInstance "us-east-1" (dt2ts sampleOldPacker.launchTime + 21600)
      max_age sampleOldPacker = .ok none) ∧
    (scanInstance "us-east-1" (dt2ts sampleOldPacker.launchTime + 21601)
      max_age sampleOldPacker =
        .ok (some { region := "us-east-1", instance_id := sampleOldPacker.instanceId,
                    keyname := "packer k1",
                    security_groups := sampleOldPacker.securityGroups })) :=
  ⟨(C4_strict_threshold "us-east-1" (dt2ts sampleOldPacker.launchTime + 21600)
      sampleOldPacker "packer k1" rfl (by decide) rfl).2.1
      (by simp [max_age]),
   (C4_strict_threshold "us-east-1" (dt2ts sampleOldPacker.launchTime + 21601)
      sampleOldPacker "packer k1" rfl (by decide) rfl).2.2
      (by simp [max_age])⟩

/-- **C5.**  The Key-Pair Scanner flags a key pair iff its name matches the
case-sensitive prefix pattern `'packer *'` (i.e. starts with `"packer "`),
and the Security-Group Scanner flags a group iff its name matches
`'packer_*'`; for both, the output for a region is exactly the names of the
matching resources of that region, and membership depends only on the name
(existence of a resource with that name plus the prefix test), never on any
other attribute. -/
theorem C5_name_filters (p : Provider) (regions : List String) (r : String)
    (pairs : List KeyPair) (sgs : List SecurityGroup)
    (outK outG : List (String × List String))
    (hr : r ∈ regions)
    (hkp : p.keyPairs r = .ok pairs)
    (hsg : p.securityGroups r = .ok sgs)
    (hokK : get_zombie_packer_keys p regions = .ok outK)
    (hokG : get_zombie_packer_security_groups p regions = .ok outG) :
    (∃ ks, (r, ks) ∈ outK ∧
      ks = (pairs.filter (fun kp => filterMatch "packer *" kp.keyName)).map
            (fun kp => kp.keyName) ∧
      ∀ n, n ∈ ks ↔
        ((∃ kp ∈ pairs, kp.keyName = n) ∧ "packer ".toList <+: n.toList)) ∧
    (∃ gs, (r, gs) ∈ outG ∧
      gs = (sgs.filter (fun sg => filterMatch "packer_*" sg.groupName)).map
            (fun sg => sg.groupName) ∧
      ∀ n, n ∈ gs ↔
        ((∃ sg ∈ sgs, sg.groupName = n) ∧ "packer_".toList <+: n.toList)) := by
  constructor
  · obtain ⟨a, hstep, hmem⟩ :=
      assocScan_mem
        (fun r => p.keyPairs r >>= fun pairs => pure
          ((pairs.filter (fun kp => filterMatch "packer *" kp.keyName)).map
            (fun kp => kp.keyName)))
        (get_zombie_packer_keys p) (keys_step_cons p) regions outK r hokK hr
    rw [hkp, exc_bind_ok] at hstep
    have ha : a = (pairs.filter (fun kp => filterMatch "packer *" kp.keyName)).map
        (fun kp => kp.keyName) := (Except.ok.inj hstep).symm
    refine ⟨a, hmem, ha, ?_⟩
    intro n
    rw [ha]
    constructor
    · intro hn
      obtain ⟨kp, hkp', hn'⟩ := List.mem_map.mp hn
      obtain ⟨hkm, hq⟩ := List.mem_filter.mp hkp'
      exact ⟨⟨kp, hkm, hn'⟩, hn' ▸ (filterMatch_packer_space kp.keyName).mp hq⟩
    · rintro ⟨⟨kp, hkm, hn'⟩, hpre⟩
      refine List.mem_map.mpr ⟨kp, List.mem_filter.mpr ⟨hkm, ?_⟩, hn'⟩
      exact (filterMatch_packer_space kp.keyName).mpr (hn' ▸ hpre)
  · obtain ⟨a, hstep, hmem⟩ :=
      assocScan_mem
        (fun r => p.securityGroups r >>= fun sgs => pure
          ((sgs.filter (fun sg => filterMatch "packer_*" sg.groupName)).map
            (fun sg => sg.groupName)))
        (get_zombie_packer_security_groups p) (sgs_step_cons p) regions outG r hokG hr
    rw [hsg, exc_bind_ok] at hstep
    have ha : a = (sgs.filter (fun sg => filterMatch "packer_*" sg.groupName)).map
        (fun sg => sg.groupName) := (Except.ok.inj hstep).symm
    refine ⟨a, hmem, ha, ?_⟩
    intro n
    rw [ha]
    constructor
    · intro hn
      obtain ⟨sg, hsg', hn'⟩ := List.mem_map.mp hn
      obtain ⟨hgm, hq⟩ := List.mem_filter.mp hsg'
      exact ⟨⟨sg, hgm, hn'⟩, hn' ▸ (filterMatch_packer_underscore sg.groupName).mp hq⟩
    · rintro ⟨⟨sg, hgm, hn'⟩, hpre⟩
      refine List.mem_map.mpr ⟨sg, List.mem_filter.mpr ⟨hgm, ?_⟩, hn'⟩
      exact (filterMatch_packer_underscore sg.groupName).mpr (hn' ▸ hpre)

/-- Witness for C5 on the sample provider: in `us-east-1`, key `"packer k1"`
matches and `"deploy-key"` does not; group `"packer_sg1"` matches and
`"default"` does not. -/
theorem C5_name_filters_witness :
    (∃ ks, ("us-east-1", ks) ∈
        [("us-east-1", ["packer k1"]), ("eu-west-1", [])] ∧
      ks = (([⟨"packer k1", "aa:bb"⟩, ⟨"deploy-key", "cc:dd"⟩] :
              List KeyPair).filter
              (fun kp => filterMatch "packer *" kp.keyName)).map
            (fun kp => kp.keyName) ∧
      ∀ n, n ∈ ks ↔
        ((∃ kp ∈ ([⟨"packer k1", "aa:bb"⟩, ⟨"deploy-key", "cc:dd"⟩] :
            List KeyPair), kp.keyName = n) ∧ "packer ".toList <+: n.toList)) ∧
    (∃ gs, ("us-east-1", gs) ∈
        [("us-east-1", ["packer_sg1"]), ("eu-west-1", [])] ∧
      gs = (([⟨"packer_sg1", "sg-1", "x"⟩, ⟨"default", "sg-0", "y"⟩] :
              List SecurityGroup).filter
              (fun sg => filterMatch "packer_*" sg.groupName)).map
            (fun sg => sg.groupName) ∧
      ∀ n, n ∈ gs ↔
        ((∃ sg ∈ ([⟨"packer_sg1", "sg-1", "x"⟩, ⟨"default", "sg-0", "y"⟩] :
            List SecurityGroup), sg.groupName = n) ∧
          "packer_".toList <+: n.toList)) :=
  C5_name_filters sampleProvider sampleRegions "us-east-1"
    [⟨"packer k1", "aa:bb"⟩, ⟨"deploy-key", "cc:dd"⟩]
    [⟨"packer_sg1", "sg-1", "x"⟩, ⟨"default", "sg-0", "y"⟩]
    [("us-east-1", ["packer k1"]), ("eu-west-1", [])]
    [("us-east-1", ["packer_sg1"]), ("eu-west-1", [])]
    (by decide) (by rfl) (by rfl) keys_scan_sample sgs_scan_sample

/-- **C2.**  Every terminate / delete call is wrapped in `try/except`: for
any failure oracle `f` (any subset of the delete/terminate calls failing),
once the scan phase has produced its results the run completes with a full
trace (`Except.ok`), and every flagged resource of every region still gets
its mutation call attempted. -/
theorem C2_deletion_errors_isolated {α β : Type} (ev : α) (ctx : β)
    (p : Provider) (now age : Int) (regions : List String)
    (zi : List (String × List ZombieInstance))
    (zk zg : List (String × List String))
    (hzi : get_zombie_packer_instances p now age regions = .ok zi)
    (hzk : get_zombie_packer_keys p regions = .ok zk)
    (hzg : get_zombie_packer_security_groups p regions = .ok zg)
    (f : FailureModel) :
    ∃ tr, lambda_handler ev ctx p f now age regions = .ok tr ∧
      (∀ region zs, (region, zs) ∈ zi → zs ≠ [] →
        Event.terminateCall region (zs.map (fun z => z.instance_id)) ∈ tr) ∧
      (∀ region ks k, (region, ks) ∈ zk → k ∈ ks →
        Event.deleteKeyCall region k ∈ tr) ∧
      (∀ region gs g, (region, gs) ∈ zg → g ∈ gs →
        Event.deleteSgCall region g ∈ tr) := by
  refine ⟨_, lambda_handler_ok_of_scans ev ctx p f now age regions zi zk zg
    hzi hzk hzg, ?_, ?_, ?_⟩
  · intro region zs hmem hne
    exact List.mem_append.mpr (Or.inl (List.mem_append.mpr (Or.inl
      (List.mem_cons_of_mem _
        ((instancePass_terminate_mem f region
          (zs.map (fun z => z.instance_id)) zi).mpr ⟨zs, hmem, hne, rfl⟩)))))
  · intro region ks k hmem hk
    exact List.mem_append.mpr (Or.inl (List.mem_append.mpr (Or.inr
      (List.mem_cons_of_mem _
        ((keyPass_delete_mem f region k zk).mpr ⟨ks, hmem, hk⟩)))))
  · intro region gs g hmem hg
    exact List.mem_append.mpr (Or.inr (List.mem_cons_of_mem _
      ((sgPass_delete_mem f region g zg).mpr ⟨gs, hmem, hg⟩)))

/-- Witness for C2: the sample provider with every delete/terminate call
failing (`allFail`); the run still completes and attempts every call. -/
theorem C2_deletion_errors_isolated_witness :
    ∃ tr, lambda_handler () () sampleProvider allFail sampleNow max_age
        sampleRegions = .ok tr ∧
      (∀ region zs,
        (region, zs) ∈ [("us-east-1", [sampleZombie]), ("eu-west-1", [])] →
        zs ≠ [] →
        Event.terminateCall region (zs.map (fun z => z.instance_id)) ∈ tr) ∧
      (∀ region ks k,
        (region, ks) ∈ [("us-east-1", ["packer k1"]), ("eu-west-1", [])] →
        k ∈ ks → Event.deleteKeyCall region k ∈ tr) ∧
      (∀ region gs g,
        (region, gs) ∈ [("us-east-1", ["packer_sg1"]), ("eu-west-1", [])] →
        g ∈ gs → Event.deleteSgCall region g ∈ tr) :=
  C2_deletion_errors_isolated () () sampleProvider sampleNow max_age
    sampleRegions _ _ _ instances_scan_sample keys_scan_sample
    sgs_scan_sample allFail

/-! ### Extracting a mutation event's pass from a full trace -/

theorem trace_terminate_extract (f : FailureModel)
    (zi : List (String × List ZombieInstance))
    (zk zg : List (String × List String)) (n1 n2 n3 : Nat)
    (r : String) (ids : List String)
    (hmem : Event.terminateCall r ids ∈
      (Event.logScanInstances n1 :: instancePass f zi)
        ++ (Event.logScanKeys n2 :: keyPass f zk)
        ++ (Event.logScanSgs n3 :: sgPass f zg)) :
    Event.terminateCall r ids ∈ instancePass f zi := by
  rcases List.mem_append.mp hmem with h | h
  · rcases List.mem_append.mp h with h' | h'
    · rcases List.mem_cons.mp h' with he | he
      · exact absurd he (by simp)
      · exact he
    · rcases List.mem_cons.mp h' with he | he
      · exact absurd he (by simp)
      · have hk := keyPass_kind f zk _ he
        simp [Event.passKind] at hk
  · rcases List.mem_cons.mp h with he | he
    · exact absurd he (by simp)
    · have hk := sgPass_kind f zg _ he
      simp [Event.passKind] at hk

theorem trace_deleteKey_extract (f : FailureModel)
    (zi : List (String × List ZombieInstance))
    (zk zg : List (String × List String)) (n1 n2 n3 : Nat) (r k : String)
    (hmem : Event.deleteKeyCall r k ∈
      (Event.logScanInstances n1 :: instancePass f zi)
        ++ (Event.logScanKeys n2 :: keyPass f zk)
        ++ (Event.logScanSgs n3 :: sgPass f zg)) :
    Event.deleteKeyCall r k ∈ keyPass f zk := by
  rcases List.mem_append.mp hmem with h | h
  · rcases List.mem_append.mp h with h' | h'
    · rcases List.mem_cons.mp h' with he | he
      · exact absurd he (by simp)
      · have hk := instancePass_kind f zi _ he
        simp [Event.passKind] at hk
    · rcases List.mem_cons.mp h' with he | he
      · exact absurd he (by simp)
      · exact he
  · rcases List.mem_cons.mp h with he | he
    · exact absurd he (by simp)
    · have hk := sgPass_kind f zg _ he
      simp [Event.passKind] at hk

theorem trace_deleteSg_extract (f : FailureModel)
    (zi : List (String × List ZombieInstance))
    (zk zg : List (String × List String)) (n1 n2 n3 : Nat) (r g : String)
    (hmem : Event.deleteSgCall r g ∈
      (Event.logScanInstances n1 :: instancePass f zi)
        ++ (Event.logScanKeys n2 :: keyPass f zk)
        ++ (Event.logScanSgs n3 :: sgPass f zg)) :
    Event.deleteSgCall r g ∈ sgPass f zg := by
  rcases List.mem_append.mp hmem with h | h
  · rcases List.mem_append.mp h with h' | h'
    · rcases List.mem_cons.mp h' with he | he
      · exact absurd he (by simp)
      · have hk := instancePass_kind f zi _ he
        simp [Event.passKind] at hk
    · rcases List.mem_cons.mp h' with he | he
      · exact absurd he (by simp)
      · have hk := keyPass_kind f zk _ he
        simp [Event.passKind] at hk
  · rcases List.mem_cons.mp h with he | he
    · exact absurd he (by simp)
    · exact he

/-- Every zombie-instance record of a successful scan carries the region it
was discovered under. -/
theorem zi_region_inv (p : Provider) (now age : Int) (regions : List String)
    (zi : List (String × List ZombieInstance))
    (hzi : get_zombie_packer_instances p now age regions = .ok zi) :
    ∀ pr ∈ zi, ∀ z ∈ pr.2, z.region = pr.1 := by
  intro pr hpr z hz
  have hrev := assocScan_rev
    (fun r => p.reservations r >>= fun rv => scanInstList r now age rv.flatten)
    (get_zombie_packer_instances p now age) rfl
    (instances_step_cons p now age) regions zi hzi pr hpr
  obtain ⟨_, hstep⟩ := hrev
  have hstep' : (p.reservations pr.1 >>=
      fun rv => scanInstList pr.1 now age rv.flatten) = .ok pr.2 := hstep
  cases hres : p.reservations pr.1 with
  | error e =>
    rw [hres, exc_bind_error] at hstep'
    exact absurd hstep' (exc_error_ne_ok _ _)
  | ok resvs =>
    rw [hres, exc_bind_ok] at hstep'
    have heq := scanInstList_ok_eq pr.1 now age resvs.flatten pr.2 hstep' 
    rw [heq] at hz
    obtain ⟨i, _, hzo⟩ := List.mem_filterMap.mp hz
    exact zombieOf_region pr.1 now age i z hzo

/-- **C6.**  Every zombie record's `region` field equals the region it was
discovered under, and every mutation call in the trace is issued through
the client of that same region, on exactly the resources flagged for that
region — for all three resource kinds. -/
theorem C6_region_binding {α β : Type} (ev : α) (ctx : β) (p : Provider)
    (f : FailureModel) (now age : Int) (regions : List String)
    (tr : List Event)
    (zi : List (String × List ZombieInstance))
    (zk zg : List (String × List String))
    (hok : lambda_handler ev ctx p f now age regions = .ok tr)
    (hzi : get_zombie_packer_instances p now age regions = .ok zi)
    (hzk : get_zombie_packer_keys p regions = .ok zk)
    (hzg : get_zombie_packer_security_groups p regions = .ok zg) :
    (∀ pr ∈ zi, ∀ z ∈ pr.2, z.region = pr.1) ∧
    (∀ region ids, Event.terminateCall region ids ∈ tr →
      ∃ zs, (region, zs) ∈ zi ∧ ids = zs.map (fun z => z.instance_id) ∧
        ∀ z ∈ zs, z.region = region) ∧
    (∀ region k, Event.deleteKeyCall region k ∈ tr →
      ∃ ks, (region, ks) ∈ zk ∧ k ∈ ks) ∧
    (∀ region g, Event.deleteSgCall region g ∈ tr →
      ∃ gs, (region, gs) ∈ zg ∧ g ∈ gs) := by
  obtain ⟨zi', zk', zg', hzi', hzk', hzg', htr⟩ :=
    lambda_handler_ok_eq ev ctx p f now age regions tr hok
  have ezi : zi' = zi := Except.ok.inj (hzi'.symm.trans hzi)
  have ezk : zk' = zk := Except.ok.inj (hzk'.symm.trans hzk)
  have ezg : zg' = zg := Except.ok.inj (hzg'.symm.trans hzg)
  rw [ezi, ezk, ezg] at htr
  have hreg1 := zi_region_inv p now age regions zi hzi
  refine ⟨hreg1, ?_, ?_, ?_⟩
  · intro region ids hmem
    rw [htr] at hmem
    have he := trace_terminate_extract f zi zk zg _ _ _ region ids hmem
    obtain ⟨zs, h1, _, h3⟩ := (instancePass_terminate_mem f region ids zi).mp he
    exact ⟨zs, h1, h3, fun z hz => hreg1 (region, zs) h1 z hz⟩
  · intro region k hmem
    rw [htr] at hmem
    have he := trace_deleteKey_extract f zi zk zg _ _ _ region k hmem
    exact (keyPass_delete_mem f region k zk).mp he
  · intro region g hmem
    rw [htr] at hmem
    have he := trace_deleteSg_extract f zi zk zg _ _ _ region g hmem
    exact (sgPass_delete_mem f region g zg).mp he

/-- Witness for C6 on the sample provider with no failing deletions. -/
theorem C6_region_binding_witness :
    (∀ pr ∈ [("us-east-1", [sampleZombie]), ("eu-west-1", ([] : List ZombieInstance))],
      ∀ z ∈ pr.2, z.region = pr.1) ∧
    (∀ region ids, Event.terminateCall region ids ∈
        (Event.logScanInstances sampleRegions.length
          :: instancePass noFail [("us-east-1", [sampleZombie]), ("eu-west-1", [])])
        ++ (Event.logScanKeys sampleRegions.length
          :: keyPass noFail [("us-east-1", ["packer k1"]), ("eu-west-1", [])])
        ++ (Event.logScanSgs sampleRegions.length
          :: sgPass noFail [("us-east-1", ["packer_sg1"]), ("eu-west-1", [])]) →
      ∃ zs, (region, zs) ∈ [("us-east-1", [sampleZombie]), ("eu-west-1", [])] ∧
        ids = zs.map (fun z => z.instance_id) ∧ ∀ z ∈ zs, z.region = region) ∧
    (∀ region k, Event.deleteKeyCall region k ∈
        (Event.logScanInstances sampleRegions.length
          :: instancePass noFail [("us-east-1", [sampleZombie]), ("eu-west-1", [])])
        ++ (Event.logScanKeys sampleRegions.length
          :: keyPass noFail [("us-east-1", ["packer k1"]), ("eu-west-1", [])])
        ++ (Event.logScanSgs sampleRegions.length
          :: sgPass noFail [("us-east-1", ["packer_sg1"]), ("eu-west-1", [])]) →
      ∃ ks, (region, ks) ∈ [("us-east-1", ["packer k1"]), ("eu-west-1", [])] ∧
        k ∈ ks) ∧
    (∀ region g, Event.deleteSgCall region g ∈
        (Event.logScanInstances sampleRegions.length
          :: instancePass noFail [("us-east-1", [sampleZombie]), ("eu-west-1", [])])
        ++ (Event.logScanKeys sampleRegions.length
          :: keyPass noFail [("us-east-1", ["packer k1"]), ("eu-west-1", [])])
        ++ (Event.logScanSgs sampleRegions.length
          :: sgPass noFail [("us-east-1", ["packer_sg1"]), ("eu-west-1", [])]) →
      ∃ gs, (region, gs) ∈ [("us-east-1", ["packer_sg1"]), ("eu-west-1", [])] ∧
        g ∈ gs) :=
  C6_region_binding () () sampleProvider noFail sampleNow max_age sampleRegions
    _ _ _ _
    (lambda_handler_ok_of_scans () () sampleProvider noFail sampleNow max_age
      sampleRegions _ _ _ instances_scan_sample keys_scan_sample
      sgs_scan_sample)
    instances_scan_sample keys_scan_sample sgs_scan_sample

theorem countP_zero_of_kind (l : List Event) (n : Nat)
    (hl : ∀ e ∈ l, e.passKind = n) (q : Event → Bool)
    (hq : ∀ e, q e = true → e.passKind ≠ n) : l.countP q = 0 :=
  List.countP_eq_zero.mpr (fun e he hP => hq e hP (hl e he))

theorem passA_kind (f : FailureModel) (zi : List (String × List ZombieInstance))
    (n : Nat) : ∀ e ∈ (Event.logScanInstances n :: instancePass f zi),
      e.passKind = 1 := by
  intro e he
  rcases List.mem_cons.mp he with rfl | he'
  · rfl
  · exact instancePass_kind f zi e he'

theorem passB_kind (f : FailureModel) (zk : List (String × List String))
    (n : Nat) : ∀ e ∈ (Event.logScanKeys n :: keyPass f zk),
      e.passKind = 2 := by
  intro e he
  rcases List.mem_cons.mp he with rfl | he'
  · rfl
  · exact keyPass_kind f zk e he'

theorem passC_kind (f : FailureModel) (zg : List (String × List String))
    (n : Nat) : ∀ e ∈ (Event.logScanSgs n :: sgPass f zg),
      e.passKind = 3 := by
  intro e he
  rcases List.mem_cons.mp he with rfl | he'
  · rfl
  · exact sgPass_kind f zg e he'

/-- **C7.**  For every region in which a pass finds zero flagged resources,
that pass logs its "found none, skipping" line for the region and issues no
mutation call for that region; a region empty for all three scanners gets
all three skip lines and no mutation call at all.  (`hnd` is the region
enumerator's guarantee that region names are distinct.) -/
theorem C7_skip_and_no_mutations {α β : Type} (ev : α) (ctx : β)
    (p : Provider) (f : FailureModel) (now age : Int)
    (regions : List String) (region : String) (tr : List Event)
    (zi : List (String × List ZombieInstance))
    (zk zg : List (String × List String))
    (hnd : regions.Nodup)
    (hok : lambda_handler ev ctx p f now age regions = .ok tr)
    (hzi : get_zombie_packer_instances p now age regions = .ok zi)
    (hzk : get_zombie_packer_keys p regions = .ok zk)
    (hzg : get_zombie_packer_security_groups p regions = .ok zg) :
    ((region, []) ∈ zi → Event.logSkipInstances region ∈ tr ∧
      ∀ ids, Event.terminateCall region ids ∉ tr) ∧
    ((region, []) ∈ zk → Event.logSkipKeys region ∈ tr ∧
      ∀ k, Event.deleteKeyCall region k ∉ tr) ∧
    ((region, []) ∈ zg → Event.logSkipSgs region ∈ tr ∧
      ∀ g, Event.deleteSgCall region g ∉ tr) ∧
    ((region, []) ∈ zi → (region, []) ∈ zk → (region, []) ∈ zg →
      ∀ e ∈ tr, e.mutationRegion ≠ some region) := by
  obtain ⟨zi', zk', zg', hzi', hzk', hzg', htr⟩ :=
    lambda_handler_ok_eq ev ctx p f now age regions tr hok
  have ezi : zi' = zi := Except.ok.inj (hzi'.symm.trans hzi)
  have ezk : zk' = zk := Except.ok.inj (hzk'.symm.trans hzk)
  have ezg : zg' = zg := Except.ok.inj (hzg'.symm.trans hzg)
  rw [ezi, ezk, ezg] at htr
  have hfsti := assocScan_fst
    (fun r => p.reservations r >>= fun rv => scanInstList r now age rv.flatten)
    (get_zombie_packer_instances p now age) rfl
    (instances_step_cons p now age) regions zi hzi
  have hfstk := assocScan_fst
    (fun r => p.keyPairs r >>= fun pairs => pure
      ((pairs.filter (fun kp => filterMatch "packer *" kp.keyName)).map
        (fun kp => kp.keyName)))
    (get_zombie_packer_keys p) rfl (keys_step_cons p) regions zk hzk
  have hfstg := assocScan_fst
    (fun r => p.securityGroups r >>= fun sgs => pure
      ((sgs.filter (fun sg => filterMatch "packer_*" sg.groupName)).map
        (fun sg => sg.groupName)))
    (get_zombie_packer_security_groups p) rfl (sgs_step_cons p) regions zg hzg
  have hndi : (zi.map Prod.fst).Nodup := by rw [hfsti]; exact hnd
  have hndk : (zk.map Prod.fst).Nodup := by rw [hfstk]; exact hnd
  have hndg : (zg.map Prod.fst).Nodup := by rw [hfstg]; exact hnd
  have hA : (region, []) ∈ zi → Event.logSkipInstances region ∈ tr ∧
      ∀ ids, Event.terminateCall region ids ∉ tr := by
    intro hmem
    constructor
    · rw [htr]
      exact List.mem_append.mpr (Or.inl (List.mem_append.mpr (Or.inl
        (List.mem_cons_of_mem _ ((instancePass_skip_mem f region zi).mpr hmem)))))
    · intro ids hin
      rw [htr] at hin
      have he := trace_terminate_extract f zi zk zg _ _ _ region ids hin
      obtain ⟨zs, h1, hne, _⟩ := (instancePass_terminate_mem f region ids zi).mp he
      exact hne (assoc_nodup_eq zi hndi region [] zs hmem h1).symm
  have hB : (region, []) ∈ zk → Event.logSkipKeys region ∈ tr ∧
      ∀ k, Event.deleteKeyCall region k ∉ tr := by
    intro hmem
    constructor
    · rw [htr]
      exact List.mem_append.mpr (Or.inl (List.mem_append.mpr (Or.inr
        (List.mem_cons_of_mem _ ((keyPass_skip_mem f region zk).mpr hmem)))))
    · intro k hin
      rw [htr] at hin
      have he := trace_deleteKey_extract f zi zk zg _ _ _ region k hin
      obtain ⟨ks, h1, hk⟩ := (keyPass_delete_mem f region k zk).mp he
      rw [← assoc_nodup_eq zk hndk region [] ks hmem h1] at hk
      simp at hk
  have hC : (region, []) ∈ zg → Event.logSkipSgs region ∈ tr ∧
      ∀ g, Event.deleteSgCall region g ∉ tr := by
    intro hmem
    constructor
    · rw [htr]
      exact List.mem_append.mpr (Or.inr
        (List.mem_cons_of_mem _ ((sgPass_skip_mem f region zg).mpr hmem)))
    · intro g hin
      rw [htr] at hin
      have he := trace_deleteSg_extract f zi zk zg _ _ _ region g hin
      obtain ⟨gs, h1, hg⟩ := (sgPass_delete_mem f region g zg).mp he
      rw [← assoc_nodup_eq zg hndg region [] gs hmem h1] at hg
      simp at hg
  refine ⟨hA, hB, hC, ?_⟩
  intro h1i h1k h1g e he hmr
  cases e <;> simp only [Event.mutationRegion] at hmr <;>
    try exact Option.noConfusion hmr
  case terminateCall r' ids =>
    have hr' : r' = region := Option.some.inj hmr
    subst hr'
    exact (hA h1i).2 ids he
  case deleteKeyCall r' k =>
    have hr' : r' = region := Option.some.inj hmr
    subst hr'
    exact (hB h1k).2 k he
  case deleteSgCall r' g =>
    have hr' : r' = region := Option.some.inj hmr
    subst hr'
    exact (hC h1g).2 g he

/-- Witness for C7: region `eu-west-1` of the sample provider is empty for
all three scanners. -/
theorem C7_skip_and_no_mutations_witness :
    (("eu-west-1", ([] : List ZombieInstance)) ∈
        [("us-east-1", [sampleZombie]), ("eu-west-1", [])] →
      Event.logSkipInstances "eu-west-1" ∈
        (Event.logScanInstances sampleRegions.length
          :: instancePass noFail [("us-east-1", [sampleZombie]), ("eu-west-1", [])])
        ++ (Event.logScanKeys sampleRegions.length
          :: keyPass noFail [("us-east-1", ["packer k1"]), ("eu-west-1", [])])
        ++ (Event.logScanSgs sampleRegions.length
          :: sgPass noFail [("us-east-1", ["packer_sg1"]), ("eu-west-1", [])]) ∧
      ∀ ids, Event.terminateCall "eu-west-1" ids ∉
        (Event.logScanInstances sampleRegions.length
          :: instancePass noFail [("us-east-1", [sampleZombie]), ("eu-west-1", [])])
        ++ (Event.logScanKeys sampleRegions.length
          :: keyPass noFail [("us-east-1", ["packer k1"]), ("eu-west-1", [])])
        ++ (Event.logScanSgs sampleRegions.length
          :: sgPass noFail [("us-east-1", ["packer_sg1"]), ("eu-west-1", [])])) ∧
    (("eu-west-1", ([] : List String)) ∈
        [("us-east-1", ["packer k1"]), ("eu-west-1", [])] →
      Event.logSkipKeys "eu-west-1" ∈
        (Event.logScanInstances sampleRegions.length
          :: instancePass noFail [("us-east-1", [sampleZombie]), ("eu-west-1", [])])
        ++ (Event.logScanKeys sampleRegions.length
          :: keyPass noFail [("us-east-1", ["packer k1"]), ("eu-west-1", [])])
        ++ (Event.logScanSgs sampleRegions.length
          :: sgPass noFail [("us-east-1", ["packer_sg1"]), ("eu-west-1", [])]) ∧
      ∀ k, Event.deleteKeyCall "eu-west-1" k ∉
        (Event.logScanInstances sampleRegions.length
          :: instancePass noFail [("us-east-1", [sampleZombie]), ("eu-west-1", [])])
        ++ (Event.logScanKeys sampleRegions.length
          :: keyPass noFail [("us-east-1", ["packer k1"]), ("eu-west-1", [])])
        ++ (Event.logScanSgs sampleRegions.length
          :: sgPass noFail [("us-east-1", ["packer_sg1"]), ("eu-west-1", [])])) ∧
    (("eu-west-1", ([] : List String)) ∈
        [("us-east-1", ["packer_sg1"]), ("eu-west-1", [])] →
      Event.logSkipSgs "eu-west-1" ∈
        (Event.logScanInstances sampleRegions.length
          :: instancePass noFail [("us-east-1", [sampleZombie]), ("eu-west-1", [])])
        ++ (Event.logScanKeys sampleRegions.length
          :: keyPass noFail [("us-east-1", ["packer k1"]), ("eu-west-1", [])])
        ++ (Event.logScanSgs sampleRegions.length
          :: sgPass noFail [("us-east-1", ["packer_sg1"]), ("eu-west-1", [])]) ∧
      ∀ g, Event.deleteSgCall "eu-west-1" g ∉
        (Event.logScanInstances sampleRegions.length
          :: instancePass noFail [("us-east-1", [sampleZombie]), ("eu-west-1", [])])
        ++ (Event.logScanKeys sampleRegions.length
          :: keyPass noFail [("us-east-1", ["packer k1"]), ("eu-west-1", [])])
        ++ (Event.logScanSgs sampleRegions.length
          :: sgPass noFail [("us-east-1", ["packer_sg1"]), ("eu-west-1", [])])) ∧
    (("eu-west-1", ([] : List ZombieInstance)) ∈
        [("us-east-1", [sampleZombie]), ("eu-west-1", [])] →
      ("eu-west-1", ([] : List String)) ∈
        [("us-east-1", ["packer k1"]), ("eu-west-1", [])] →
      ("eu-west-1", ([] : List String)) ∈
        [("us-east-1", ["packer_sg1"]), ("eu-west-1", [])] →
      ∀ e ∈ (Event.logScanInstances sampleRegions.length
          :: instancePass noFail [("us-east-1", [sampleZombie]), ("eu-west-1", [])])
        ++ (Event.logScanKeys sampleRegions.length
          :: keyPass noFail [("us-east-1", ["packer k1"]), ("eu-west-1", [])])
        ++ (Event.logScanSgs sampleRegions.length
          :: sgPass noFail [("us-east-1", ["packer_sg1"]), ("eu-west-1", [])]),
        e.mutationRegion ≠ some "eu-west-1") :=
  C7_skip_and_no_mutations () () sampleProvider noFail sampleNow max_age
    sampleRegions "eu-west-1" _ _ _ _ (by decide)
    (lambda_handler_ok_of_scans () () sampleProvider noFail sampleNow max_age
      sampleRegions _ _ _ instances_scan_sample keys_scan_sample
      sgs_scan_sample)
    instances_scan_sample keys_scan_sample sgs_scan_sample

/-- **C8.**  The three passes run in the fixed order instances, key pairs,
security groups; a region with flagged instances gets exactly one batched
terminate call (counted over the whole trace) carrying precisely its
flagged instance ids, while key pairs and security groups get one delete
call per flagged name (one per occurrence). -/
theorem C8_batching_and_order {α β : Type} (ev : α) (ctx : β) (p : Provider)
    (f : FailureModel) (now age : Int) (regions : List String)
    (tr : List Event)
    (zi : List (String × List ZombieInstance))
    (zk zg : List (String × List String))
    (hnd : regions.Nodup)
    (hok : lambda_handler ev ctx p f now age regions = .ok tr)
    (hzi : get_zombie_packer_instances p now age regions = .ok zi)
    (hzk : get_zombie_packer_keys p regions = .ok zk)
    (hzg : get_zombie_packer_security_groups p regions = .ok zg) :
    (∃ A B C, tr = A ++ B ++ C ∧ (∀ e ∈ A, e.passKind = 1)
      ∧ (∀ e ∈ B, e.passKind = 2) ∧ (∀ e ∈ C, e.passKind = 3)) ∧
    (∀ region zs, (region, zs) ∈ zi → zs ≠ [] →
      tr.countP (isTerminateFor region) = 1 ∧
      ∀ ids, Event.terminateCall region ids ∈ tr →
        ids = zs.map (fun z => z.instance_id)) ∧
    (∀ region ks k, (region, ks) ∈ zk →
      tr.countP (isDeleteKey region k) = ks.count k) ∧
    (∀ region gs g, (region, gs) ∈ zg →
      tr.countP (isDeleteSg region g) = gs.count g) := by
  obtain ⟨zi', zk', zg', hzi', hzk', hzg', htr⟩ :=
    lambda_handler_ok_eq ev ctx p f now age regions tr hok
  have ezi : zi' = zi := Except.ok.inj (hzi'.symm.trans hzi)
  have ezk : zk' = zk := Except.ok.inj (hzk'.symm.trans hzk)
  have ezg : zg' = zg := Except.ok.inj (hzg'.symm.trans hzg)
  rw [ezi, ezk, ezg] at htr
  have hfsti := assocScan_fst
    (fun r => p.reservations r >>= fun rv => scanInstList r now age rv.flatten)
    (get_zombie_packer_instances p now age) rfl
    (instances_step_cons p now age) regions zi hzi
  have hfstk := assocScan_fst
    (fun r => p.keyPairs r >>= fun pairs => pure
      ((pairs.filter (fun kp => filterMatch "packer *" kp.keyName)).map
        (fun kp => kp.keyName)))
    (get_zombie_packer_keys p) rfl (keys_step_cons p) regions zk hzk
  have hfstg := assocScan_fst
    (fun r => p.securityGroups r >>= fun sgs => pure
      ((sgs.filter (fun sg => filterMatch "packer_*" sg.groupName)).map
        (fun sg => sg.groupName)))
    (get_zombie_packer_security_groups p) rfl (sgs_step_cons p) regions zg hzg
  have hndi : (zi.map Prod.fst).Nodup := by rw [hfsti]; exact hnd
  have hndk : (zk.map Prod.fst).Nodup := by rw [hfstk]; exact hnd
  have hndg : (zg.map Prod.fst).Nodup := by rw [hfstg]; exact hnd
  refine ⟨⟨_, _, _, htr, passA_kind f zi _, passB_kind f zk _, passC_kind f zg _⟩,
    ?_, ?_, ?_⟩
  · intro region zs hmem hne
    constructor
    · rw [htr, List.countP_append, List.countP_append]
      have cB : (Event.logScanKeys regions.length :: keyPass f zk).countP
          (isTerminateFor region) = 0 :=
        countP_zero_of_kind _ 2 (passB_kind f zk _) _
          (fun e hP => by rw [isTerminateFor_kind region e hP]; decide)
      have cC : (Event.logScanSgs regions.length :: sgPass f zg).countP
          (isTerminateFor region) = 0 :=
        countP_zero_of_kind _ 3 (passC_kind f zg _) _
          (fun e hP => by rw [isTerminateFor_kind region e hP]; decide)
      have cA : (Event.logScanInstances regions.length
          :: instancePass f zi).countP (isTerminateFor region) = 1 := by
        rw [List.countP_cons_of_neg _ _ (by simp [isTerminateFor])]
        rw [instancePass_countP]
        rw [assoc_map_sum_nodup (fun zs => if zs = [] then 0 else 1) region zs
          zi hndi hmem]
        simp [hne]
      rw [cA, cB, cC]
    · intro ids hin
      rw [htr] at hin
      have he := trace_terminate_extract f zi zk zg _ _ _ region ids hin
      obtain ⟨zs', h1, _, h3⟩ := (instancePass_terminate_mem f region ids zi).mp he
      rw [assoc_nodup_eq zi hndi region zs' zs h1 hmem] at h3
      exact h3
  · intro region ks k hmem
    rw [htr, List.countP_append, List.countP_append]
    have cA : (Event.logScanInstances regions.length
        :: instancePass f zi).countP (isDeleteKey region k) = 0 :=
      countP_zero_of_kind _ 1 (passA_kind f zi _) _
        (fun e hP => by rw [isDeleteKey_kind region k e hP]; decide)
    have cC : (Event.logScanSgs regions.length :: sgPass f zg).countP
        (isDeleteKey region k) = 0 :=
      countP_zero_of_kind _ 3 (passC_kind f zg _) _
        (fun e hP => by rw [isDeleteKey_kind region k e hP]; decide)
    have cB : (Event.logScanKeys regions.length :: keyPass f zk).countP
        (isDeleteKey region k) = ks.count k := by
      rw [List.countP_cons_of_neg _ _ (by simp [isDeleteKey])]
      rw [keyPass_countP]
      exact assoc_map_sum_nodup (fun ks => ks.count k) region ks zk hndk hmem
    rw [cA, cB, cC]
    omega
  · intro region gs g hmem
    rw [htr, List.countP_append, List.countP_append]
    have cA : (Event.logScanInstances regions.length
        :: instancePass f zi).countP (isDeleteSg region g) = 0 :=
      countP_zero_of_kind _ 1 (passA_kind f zi _) _
        (fun e hP => by rw [isDeleteSg_kind region g e hP]; decide)
    have cB : (Event.logScanKeys regions.length :: keyPass f zk).countP
        (isDeleteSg region g) = 0 :=
      countP_zero_of_kind _ 2 (passB_kind f zk _) _
        (fun e hP => by rw [isDeleteSg_kind region g e hP]; decide)
    have cC : (Event.logScanSgs regions.length :: sgPass f zg).countP
        (isDeleteSg region g) = gs.count g := by
      rw [List.countP_cons_of_neg _ _ (by simp [isDeleteSg])]
      rw [sgPass_countP]
      exact assoc_map_sum_nodup (fun gs => gs.count g) region gs zg hndg hmem
    rw [cA, cB, cC]
    omega

/-- Witness for C8 on the sample provider, with every deletion failing, at
region `us-east-1`. -/
theorem C8_batching_and_order_witness :
    (∃ A B C,
      (Event.logScanInstances sampleRegions.length
          :: instancePass allFail [("us-east-1", [sampleZombie]), ("eu-west-1", [])])
        ++ (Event.logScanKeys sampleRegions.length
          :: keyPass allFail [("us-east-1", ["packer k1"]), ("eu-west-1", [])])
        ++ (Event.logScanSgs sampleRegions.length
          :: sgPass allFail [("us-east-1", ["packer_sg1"]), ("eu-west-1", [])])
        = A ++ B ++ C ∧
      (∀ e ∈ A, e.passKind = 1) ∧ (∀ e ∈ B, e.passKind = 2)
        ∧ (∀ e ∈ C, e.passKind = 3)) ∧
    (∀ region zs,
      (region, zs) ∈ [("us-east-1", [sampleZombie]), ("eu-west-1", [])] →
      zs ≠ [] →
      ((Event.logScanInstances sampleRegions.length
          :: instancePass allFail [("us-east-1", [sampleZombie]), ("eu-west-1", [])])
        ++ (Event.logScanKeys sampleRegions.length
          :: keyPass allFail [("us-east-1", ["packer k1"]), ("eu-west-1", [])])
        ++ (Event.logScanSgs sampleRegions.length
          :: sgPass allFail [("us-east-1", ["packer_sg1"]), ("eu-west-1", [])])).countP
          (isTerminateFor region) = 1 ∧
      ∀ ids, Event.terminateCall region ids ∈
        (Event.logScanInstances sampleRegions.length
          :: instancePass allFail [("us-east-1", [sampleZombie]), ("eu-west-1", [])])
        ++ (Event.logScanKeys sampleRegions.length
          :: keyPass allFail [("us-east-1", ["packer k1"]), ("eu-west-1", [])])
        ++ (Event.logScanSgs sampleRegions.length
          :: sgPass allFail [("us-east-1", ["packer_sg1"]), ("eu-west-1", [])]) →
        ids = zs.map (fun z => z.instance_id)) ∧
    (∀ region ks k,
      (region, ks) ∈ [("us-east-1", ["packer k1"]), ("eu-west-1", [])] →
      ((Event.logScanInstances sampleRegions.length
          :: instancePass allFail [("us-east-1", [sampleZombie]), ("eu-west-1", [])])
        ++ (Event.logScanKeys sampleRegions.length
          :: keyPass allFail [("us-east-1", ["packer k1"]), ("eu-west-1", [])])
        ++ (Event.logScanSgs sampleRegions.length
          :: sgPass allFail [("us-east-1", ["packer_sg1"]), ("eu-west-1", [])])).countP
          (isDeleteKey region k) = ks.count k) ∧
    (∀ region gs g,
      (region, gs) ∈ [("us-east-1", ["packer_sg1"]), ("eu-west-1", [])] →
      ((Event.logScanInstances sampleRegions.length
          :: instancePass allFail [("us-east-1", [sampleZombie]), ("eu-west-1", [])])
        ++ (Event.logScanKeys sampleRegions.length
          :: keyPass allFail [("us-east-1", ["packer k1"]), ("eu-west-1", [])])
        ++ (Event.logScanSgs sampleRegions.length
          :: sgPass allFail [("us-east-1", ["packer_sg1"]), ("eu-west-1", [])])).countP
          (isDeleteSg region g) = gs.count g) :=
  C8_batching_and_order () () sampleProvider allFail sampleNow max_age
    sampleRegions _ _ _ _ (by decide)
    (lambda_handler_ok_of_scans () () sampleProvider allFail sampleNow max_age
      sampleRegions _ _ _ instances_scan_sample keys_scan_sample
      sgs_scan_sample)
    instances_scan_sample keys_scan_sample sgs_scan_sample

theorem truthy_iff (o : Option String) :
    truthy o = true ↔ ∃ s, o = some s ∧ s ≠ "" := by
  cases o with
  | none => simp [truthy]
  | some s => simp [truthy]

/-- **C9 counterexample.**  The claim says that whenever either marker
variable is *present* in the environment the Orchestrator is not invoked at
start.  But the script tests Python truthiness, and an empty string is
falsy: with `AWS_EXECUTION_ENV` present but set to `""`, the marker is
present yet the handler still runs once at process start. -/
theorem C9_counterexample :
    (Env.mk none (some "")).awsExecutionEnv.isSome = true ∧
    startInvocations ⟨none, some ""⟩ sampleProvider noFail sampleNow max_age
      [] = 1 := by
  constructor
  · rfl
  · rfl

/-- **C9 (amended).**  At process start the Orchestrator is invoked exactly
once iff neither marker variable is set to a *non-empty* string (Python
truthiness), and not at all otherwise; `is_aws_env` is exactly that
truthiness test, and the exposed two-argument handler ignores its `event`
and `context` arguments. -/
theorem C9_entry_amended {α β : Type} (e : Env) (p : Provider)
    (f : FailureModel) (now age : Int) (regions : List String)
    (ev ev' : α) (ctx ctx' : β) :
    (is_aws_env e = false → startInvocations e p f now age regions = 1 ∧
      moduleToplevel e p f now age regions =
        some (lambda_handler () () p f now age regions)) ∧
    (is_aws_env e = true → startInvocations e p f now age regions = 0) ∧
    (is_aws_env e = true ↔
      ((∃ s, e.awsLambdaFunctionName = some s ∧ s ≠ "") ∨
       (∃ s, e.awsExecutionEnv = some s ∧ s ≠ ""))) ∧
    lambda_handler ev ctx p f now age regions =
      lambda_handler ev' ctx' p f now age regions := by
  refine ⟨?_, ?_, ?_, rfl⟩
  · intro h
    unfold startInvocations moduleToplevel
    rw [h]
    simp
  · intro h
    unfold startInvocations moduleToplevel
    rw [h]
    simp
  · rw [show is_aws_env e =
      (truthy e.awsLambdaFunctionName || truthy e.awsExecutionEnv) from rfl]
    rw [Bool.or_eq_true]
    rw [truthy_iff, truthy_iff]

/-- Witness for the amended C9: no marker set → one immediate invocation;
a marker set to a non-empty value → none. -/
theorem C9_entry_amended_witness :
    startInvocations ⟨none, none⟩ sampleProvider noFail sampleNow max_age
      [] = 1 ∧
    startInvocations ⟨none, some "AWS_Lambda_python3.12"⟩ sampleProvider
      noFail sampleNow max_age [] = 0 :=
  ⟨((C9_entry_amended ⟨none, none⟩ sampleProvider noFail sampleNow max_age []
      () () () ()).1 (by decide)).1,
   (C9_entry_amended ⟨none, some "AWS_Lambda_python3.12"⟩ sampleProvider
      noFail sampleNow max_age [] () () () ()).2.1 (by decide)⟩

theorem scanInstList_error_of_missing_key (region : String) (now age : Int) :
    ∀ (l : List Ec2Instance) (i : Ec2Instance), i ∈ l →
      i.stateName = "running" → nameTagMatched i.tags = true →
      now - dt2ts i.launchTime > age → i.keyName = none →
      ∀ zs, scanInstList region now age l ≠ .ok zs
  | [], i, hi, _, _, _, _, _ => by simp at hi
  | j :: is, i, hi, hs, ht, ha, hk, zs => by
      intro h
      cases hj : scanInstance region now age j with
      | error e =>
        rw [scanInstList, hj, exc_bind_error] at h
        exact absurd h (exc_error_ne_ok _ _)
      | ok o =>
        cases hrest : scanInstList region now age is with
        | error e =>
          rw [scanInstList, hj, exc_bind_ok] at h
          simp only [hrest, bind_pure_comp, exc_map_error] at h
          exact absurd h (exc_error_ne_ok _ _)
        | ok rest =>
          rcases List.mem_cons.mp hi with rfl | hi'
          · have hks := scanInstance_qualifying_keyName region now age i o hj
              ⟨hs, ht, ha⟩
            rw [hk] at hks
            simp at hks
          · exact scanInstList_error_of_missing_key region now age is i hi'
              hs ht ha hk rest hrest

/-- **C10.**  Only the delete/terminate calls are guarded: an error raised
during the scan phase — a failing list-instances, list-key-pairs or
list-security-groups call, or a flagged instance record lacking the
`KeyName` field — is not caught and aborts the whole run with an error. -/
theorem C10_scan_errors_abort {α β : Type} (ev : α) (ctx : β) (p : Provider)
    (f : FailureModel) (now age : Int) (regions : List String) (r : String)
    (hr : r ∈ regions) :
    ((∃ m, p.reservations r = .error m) →
      ∃ m', lambda_handler ev ctx p f now age regions = .error m') ∧
    ((∃ m, p.keyPairs r = .error m) →
      ∃ m', lambda_handler ev ctx p f now age regions = .error m') ∧
    ((∃ m, p.securityGroups r = .error m) →
      ∃ m', lambda_handler ev ctx p f now age regions = .error m') ∧
    (∀ resvs i, p.reservations r = .ok resvs → i ∈ resvs.flatten →
      i.stateName = "running" → nameTagMatched i.tags = true →
      now - dt2ts i.launchTime > age → i.keyName = none →
      ∃ m', lambda_handler ev ctx p f now age regions = .error m') := by
  refine ⟨?_, ?_, ?_, ?_⟩
  · rintro ⟨m, hm⟩
    refine lambda_handler_error_of_instances ev ctx p f now age regions ?_
    intro zi
    refine assocScan_step_error
      (fun r => p.reservations r >>= fun rv => scanInstList r now age rv.flatten)
      (get_zombie_packer_instances p now age)
      (instances_step_cons p now age) regions r hr ?_ zi
    intro a ha
    have ha' : (p.reservations r >>=
        fun rv => scanInstList r now age rv.flatten) = .ok a := ha
    rw [hm, exc_bind_error] at ha'
    exact absurd ha' (exc_error_ne_ok _ _)
  · rintro ⟨m, hm⟩
    refine lambda_handler_error_of_keys ev ctx p f now age regions ?_
    intro zk
    refine assocScan_step_error
      (fun r => p.keyPairs r >>= fun pairs => pure
        ((pairs.filter (fun kp => filterMatch "packer *" kp.keyName)).map
          (fun kp => kp.keyName)))
      (get_zombie_packer_keys p) (keys_step_cons p) regions r hr ?_ zk
    intro a ha
    have ha' : (p.keyPairs r >>= fun pairs => pure
        ((pairs.filter (fun kp => filterMatch "packer *" kp.keyName)).map
          (fun kp => kp.keyName))) = Except.ok a := ha
    rw [hm, exc_bind_error] at ha'
    exact absurd ha' (exc_error_ne_ok _ _)
  · rintro ⟨m, hm⟩
    refine lambda_handler_error_of_sgs ev ctx p f now age regions ?_
    intro zg
    refine assocScan_step_error
      (fun r => p.securityGroups r >>= fun sgs => pure
        ((sgs.filter (fun sg => filterMatch "packer_*" sg.groupName)).map
          (fun sg => sg.groupName)))
      (get_zombie_packer_security_groups p) (sgs_step_cons p) regions r hr ?_ zg
    intro a ha
    have ha' : (p.securityGroups r >>= fun sgs => pure
        ((sgs.filter (fun sg => filterMatch "packer_*" sg.groupName)).map
          (fun sg => sg.groupName))) = Except.ok a := ha
    rw [hm, exc_bind_error] at ha'
    exact absurd ha' (exc_error_ne_ok _ _)
  · intro resvs i hres hi hs ht ha hk
    refine lambda_handler_error_of_instances ev ctx p f now age regions ?_
    intro zi
    refine assocScan_step_error
      (fun r => p.reservations r >>= fun rv => scanInstList r now age rv.flatten)
      (get_zombie_packer_instances p now age)
      (instances_step_cons p now age) regions r hr ?_ zi
    intro a haok
    have ha' : (p.reservations r >>=
        fun rv => scanInstList r now age rv.flatten) = .ok a := haok
    rw [hres, exc_bind_ok] at ha'
    exact scanInstList_error_of_missing_key r now age resvs.flatten i hi
      hs ht ha hk a ha'

/-- Witness for C10: a provider whose list calls fail aborts the run, and
so does a flagged instance with no `KeyName`. -/
theorem C10_scan_errors_abort_witness :
    (∃ m', lambda_handler () () downProvider noFail sampleNow max_age
      ["us-east-1"] = .error m') ∧
    (∃ m', lambda_handler () () sampleBadProvider noFail sampleNow max_age
      ["us-east-1"] = .error m') :=
  ⟨(C10_scan_errors_abort () () downProvider noFail sampleNow max_age
      ["us-east-1"] "us-east-1" (by decide)).1 ⟨"RequestLimitExceeded", rfl⟩,
   (C10_scan_errors_abort () () sampleBadProvider noFail sampleNow max_age
      ["us-east-1"] "us-east-1" (by decide)).2.2.2 [[sampleNoKeyName]]
      sampleNoKeyName rfl (by decide) rfl (by decide) (by decide) rfl⟩

end PackerCleanup
